import Mathlib

/-!
Verification development for the mcp-local-llm-cli repository.

The Python sources are shallowly embedded as Lean functions:
- strings are modelled as `List Char` (with `String` literals converted via `.toList`);
- Python dicts are modelled as association lists with unique keys, with dict
  operations (`in`, `pop`, item assignment) modelled by `containsKey`, `popKey`,
  `dictSet`;
- JSON values (the result of `json.loads`) are modelled by the inductive `Json`;
- the external JSON parser, the completion endpoint and the MCP transport are
  external collaborators and appear as function parameters.
-/

set_option maxRecDepth 4000

/-! ## Python primitives -/

/-- Python whitespace as used by `str.strip` and the regex class `\s`
(ASCII range: space, tab, newline, carriage return, vertical tab, form feed). -/
def pyWs (c : Char) : Bool :=
  c = ' ' || c = '\t' || c = '\n' || c = '\r' || c = '\x0b' || c = '\x0c'

/-- Python `str.strip()`: remove leading and trailing whitespace. -/
def pyStrip (s : List Char) : List Char :=
  ((s.dropWhile pyWs).reverse.dropWhile pyWs).reverse

/-- Python substring test `pat in s` for strings: does `pat` occur
contiguously in `s`? -/
def containsSub (pat : List Char) : List Char → Bool
  | [] => pat.isPrefixOf ([] : List Char)
  | c :: cs => pat.isPrefixOf (c :: cs) || containsSub pat cs

/-! ## Python dict operations (association lists with unique keys) -/

/-- First value stored under key `k` (Python dict indexing; dicts built by
`json.loads` have unique keys, so first = only). -/
def lookupKey (k : String) : List (String × α) → Option α
  | [] => none
  | (k', v) :: rest => if k' = k then some v else lookupKey k rest

/-- Python `k in d` for dicts. -/
def containsKey (k : String) (l : List (String × α)) : Bool :=
  (lookupKey k l).isSome

/-- Python `d.pop(k)` (the removal part): remove the entry with key `k`. -/
def popKey (k : String) : List (String × α) → List (String × α)
  | [] => []
  | (k', v) :: rest => if k' = k then rest else (k', v) :: popKey k rest

/-- Python `d[k] = v`: update in place if the key exists, else append
(insertion-ordered dict semantics). -/
def dictSet (k : String) (v : α) : List (String × α) → List (String × α)
  | [] => [(k, v)]
  | (k', v') :: rest => if k' = k then (k, v) :: rest else (k', v') :: dictSet k v rest

/-! ## JSON values -/

/-- A parsed JSON value, the result of `json.loads`.  Numbers are modelled as
integers; no claim depends on float semantics. -/
inductive Json where
  | null : Json
  | bool : Bool → Json
  | num : Int → Json
  | str : String → Json
  | arr : List Json → Json
  | obj : List (String × Json) → Json

/-- Python truthiness of a JSON value (`None`, `False`, `0`, `""`, `[]`, `{}`
are falsy, everything else truthy). -/
def Json.truthy : Json → Bool
  | .null => false
  | .bool b => b
  | .num n => n != 0
  | .str s => s != ""
  | .arr [] => false
  | .arr (_ :: _) => true
  | .obj [] => false
  | .obj (_ :: _) => true

/-- Python `a or b`. -/
def pyOr (a b : Json) : Json := if a.truthy then a else b

/-! ## Response interpretation (src/tool_agent.py, lines 146-155 and 208-211)

The parsed reply is classified into one of three directives.  The source has no
reified directive type; the three constructors correspond to the three
branches of the dispatch loop (answer / tool call / neither). -/

inductive Directive where
  | answerD : Json → Directive
  | toolCallD : Json → Json → Directive
  | unrecognizedD : Json → Directive

/-- Classification of a parsed model reply, translated from
src/tool_agent.py lines 146-155 (answer branch, tool branch) and 208-211
(fallthrough).  `obj.get("arguments", {}) or {}` is `pyOr` of the looked-up
value (defaulting to the empty object when the key is absent) with the empty
object.  The `.getD .null` defaults are unreachable: they are guarded by
`containsKey`. -/
def classify (obj : Json) : Directive :=
  match obj with
  | .obj kvs =>
    if containsKey "answer" kvs && !containsKey "tool" kvs then
      .answerD ((lookupKey "answer" kvs).getD .null)
    else if containsKey "tool" kvs then
      .toolCallD ((lookupKey "tool" kvs).getD .null)
        (pyOr ((lookupKey "arguments" kvs).getD (.obj [])) (.obj []))
    else
      .unrecognizedD obj
  | j => .unrecognizedD j

/-! ## Argument normalization for edit_document
(src/tool_agent.py, lines 157-171) -/

/-- First half of the normalization block (lines 160-164): if `old_str` is not
present, rename `old_string` (first priority) or else `old` to `old_str`.
`arguments["old_str"] = arguments.pop(alias)` is: remove the alias entry, then
set `old_str` to its value. -/
def normOldSide (args : List (String × α)) : List (String × α) :=
  if containsKey "old_str" args then args
  else
    match lookupKey "old_string" args with
    | some v => dictSet "old_str" v (popKey "old_string" args)
    | none =>
      match lookupKey "old" args with
      | some v => dictSet "old_str" v (popKey "old" args)
      | none => args

/-- Second half of the normalization block (lines 165-171): if `new_str` is not
present, rename `new_string`, else `new_striing`, else `new` to `new_str`. -/
def normNewSide (args : List (String × α)) : List (String × α) :=
  if containsKey "new_str" args then args
  else
    match lookupKey "new_string" args with
    | some v => dictSet "new_str" v (popKey "new_string" args)
    | none =>
      match lookupKey "new_striing" args with
      | some v => dictSet "new_str" v (popKey "new_striing" args)
      | none =>
        match lookupKey "new" args with
        | some v => dictSet "new_str" v (popKey "new" args)
        | none => args

/-- The full normalization block for the `edit_document` tool
(src/tool_agent.py lines 157-171): the `old_str` block runs first, then the
`new_str` block runs on its result. -/
def normalize_edit_args (args : List (String × α)) : List (String × α) :=
  normNewSide (normOldSide args)

/-! ## JSON extraction (src/tool_agent.py, lines 14-33)

`extract_json_from_text` strips the text and searches for the regex
`(three backticks)json\s*(\{.*\})\s*(three backticks)` with `re.DOTALL`, then for the
untagged variant, else returns the stripped text.  The regex semantics are
embedded directly: `re.search` tries each start position from the left
(`searchFence`); at a start position the literal opener must match, then `\s*`
deterministically skips whitespace (backtracking cannot help since `\{` never
matches whitespace), then the greedy `.*` selects the rightmost `}` that is
followed by optional whitespace and a closing fence (`lastClose`). -/

/-- The three-backtick fence delimiter. -/
def ticks : List Char := ['`', '`', '`']

/-- The opening fence tagged `json`. -/
def jsonOpen : List Char := ['`', '`', '`', 'j', 's', 'o', 'n']

/-- Does `l` start with optional whitespace followed by a closing fence?
This is `\s*` followed by the literal three backticks. -/
def wsThenFence : List Char → Bool
  | [] => false
  | c :: cs => ticks.isPrefixOf (c :: cs) || (pyWs c && wsThenFence cs)

/-- Index of the rightmost `}` in `u` that is followed by optional whitespace
and a closing fence: the end of the greedy `\{.*\}` group. -/
def lastClose : List Char → Option Nat
  | [] => none
  | c :: cs =>
    match lastClose cs with
    | some n => some (n + 1)
    | none => if c = '}' ∧ wsThenFence cs then some 0 else none

/-- Attempt the fence regex anchored at the start of `s`: match the literal
`opener`, skip whitespace, require `{`, and close greedily.  Returns the
matched group `\{.*\}` (braces included). -/
def tryAt (opener : List Char) (s : List Char) : Option (List Char) :=
  if opener.isPrefixOf s then
    match (s.drop opener.length).dropWhile pyWs with
    | '{' :: u =>
      match lastClose u with
      | some n => some ('{' :: u.take (n + 1))
      | none => none
    | _ => none
  else none

/-- `re.search` for the fence pattern: try every start position from the left,
return the group of the first position where the whole pattern matches. -/
def searchFence (opener : List Char) : List Char → Option (List Char)
  | [] => tryAt opener []
  | c :: cs =>
    match tryAt opener (c :: cs) with
    | some g => some g
    | none => searchFence opener cs

/-- Translation of `extract_json_from_text` (src/tool_agent.py lines 14-33):
strip, try the json-tagged fence pattern, then the untagged fence pattern,
else return the stripped text.  A successful group is stripped
(`m.group(1).strip()`). -/
def extract_json_from_text (text : List Char) : List Char :=
  let stripped := pyStrip text
  match searchFence jsonOpen stripped with
  | some g => pyStrip g
  | none =>
    match searchFence ticks stripped with
    | some g => pyStrip g
    | none => stripped

/-! ## Reasoning-markup removal (src/core/claude.py, lines 58-66)

`strip_thinking` is `re.sub(r"\[THINK\].*?\[/THINK\]", "", text, flags=re.DOTALL)`
followed by `.strip()`.  `re.sub` scans left to right; the lazy `.*?` makes a
match end at the first `[/THINK]` after its `[THINK]`; an opener with no later
closer does not match and is kept.  The scan is embedded with explicit fuel
(each step consumes at least one character, so `s.length` is enough fuel). -/

/-- The reasoning-start marker `[THINK]`. -/
def thinkOpen : List Char := ['[', 'T', 'H', 'I', 'N', 'K', ']']

/-- The reasoning-end marker `[/THINK]`. -/
def thinkClose : List Char := ['[', '/', 'T', 'H', 'I', 'N', 'K', ']']

/-- The suffix of `s` that follows the first occurrence of `pat`, if any. -/
def afterFirst (pat : List Char) : List Char → Option (List Char)
  | [] => if pat.isPrefixOf ([] : List Char) then some [] else none
  | c :: cs =>
    if pat.isPrefixOf (c :: cs) then some ((c :: cs).drop pat.length)
    else afterFirst pat cs

/-- Fueled left-to-right scan removing every `[THINK]`...`[/THINK]` match. -/
def stripThinkFuel : Nat → List Char → List Char
  | 0, s => s
  | _ + 1, [] => []
  | fuel + 1, c :: cs =>
    if thinkOpen.isPrefixOf (c :: cs) then
      match afterFirst thinkClose ((c :: cs).drop thinkOpen.length) with
      | some rest => stripThinkFuel fuel rest
      | none => c :: stripThinkFuel fuel cs
    else c :: stripThinkFuel fuel cs

/-- The `re.sub` pass of `Claude.strip_thinking`: remove every
`[THINK]`...`[/THINK]` block (lazy matching, `re.DOTALL`). -/
def stripThink (s : List Char) : List Char := stripThinkFuel s.length s

/-- Translation of `Claude.strip_thinking` (src/core/claude.py lines 58-66):
remove all reasoning blocks, then strip surrounding whitespace. -/
def strip_thinking (s : List Char) : List Char := pyStrip (stripThink s)

/-! ## Tool-result text reduction (src/tool_agent.py, lines 47-63)

A `CallToolResult` carries an optional structured payload
(`structuredContent`, `None` modelled as `Json.null`) and a list of content
blocks; a block is either a `types.TextContent` or some other block type with
an opaque textual representation.  The Python `str(...)` renderings of JSON
values, block lists and whole results are external (library `__repr__`
implementations) and appear as the `Render` parameter. -/

inductive ContentBlock where
  | textContent : String → ContentBlock
  | otherContent : String → ContentBlock

/-- Is this block a `types.TextContent`? -/
def isTextBlock : ContentBlock → Bool
  | .textContent _ => true
  | .otherContent _ => false

/-- The `for c in result.content` loop (lines 56-58): return the text of the
first `TextContent` block, if any. -/
def firstTextLoop : List ContentBlock → Option String
  | [] => none
  | .textContent t :: _ => some t
  | .otherContent _ :: rest => firstTextLoop rest

structure CallToolResult where
  structuredContent : Json
  content : List ContentBlock

/-- Python `str(...)` renderings used by `extract_tool_result_text`;
they belong to external library objects and are kept abstract. -/
structure Render where
  jsonStr : Json → String
  blocksStr : List ContentBlock → String
  resultStr : CallToolResult → String

/-- `isinstance(result.structuredContent, dict) and "result" in
result.structuredContent` (line 52), returning the field. -/
def structuredResultField : Json → Option Json
  | .obj kvs => lookupKey "result" kvs
  | _ => none

/-- Translation of `extract_tool_result_text` (src/tool_agent.py lines 47-63)
for an actual `CallToolResult` value: structured `"result"` field first, then
the first text block of a non-empty content list (else the raw rendering of
the content list), else the raw rendering of the whole result. -/
def extract_tool_result_text (R : Render) (r : CallToolResult) : String :=
  match structuredResultField r.structuredContent with
  | some v => R.jsonStr v
  | none =>
    match r.content with
    | [] => R.resultStr r
    | _ :: _ =>
      match firstTextLoop r.content with
      | some t => t
      | none => R.blocksStr r.content

/-! ## The dispatch loop, one turn (src/tool_agent.py, lines 128-211)

`processTurn` models the body of the `while True:` loop from the point where
the first model reply text `raw_text` is in hand: extraction, parsing,
classification, argument normalization, tool invocation, result reduction and
the synthesis call.  External collaborators are parameters: `parse` is
`json.loads` (`none` = `json.JSONDecodeError`), `callTool` is
`mcp_client.call_tool` (`Except.error` = any exception caught at line 177),
`synth` is the second `claude.chat`/`text_from_message` round trip, applied
to the tool-result text.  The effect trace records one entry per external
call site: `.toolEff` for line 176, `.synthEff` for line 200. -/

/-- `tool_name == "edit_document"` (line 158): Python `==` between the parsed
JSON value and a string literal. -/
def isEditDocument : Json → Bool
  | .str s => s = "edit_document"
  | _ => false

/-- The normalization block applied to an arbitrary `arguments` JSON value.
For a dict it is `normalize_edit_args`.  The model may also supply a truthy
non-dict: for a string `k in arguments` is a substring test and for a list it
is membership, and any alias hit then crashes at `.pop` (`AttributeError` /
`TypeError`); for numbers, `True`, etc. the very first `in` raises
`TypeError`.  Crashes are `Except.error ()`. -/
def normEditAny : Json → Except Unit Json
  | .obj kvs => .ok (.obj (normalize_edit_args kvs))
  | .str s =>
    let mem := fun (k : String) => containsSub k.toList s.toList
    if (mem "old_str" || (!mem "old_string" && !mem "old")) &&
       (mem "new_str" || (!mem "new_string" && !mem "new_striing" && !mem "new")) then
      .ok (.str s)
    else .error ()
  | .arr xs =>
    let mem := fun (k : String) =>
      xs.any (fun j => match j with | .str t => t = k | _ => false)
    if (mem "old_str" || (!mem "old_string" && !mem "old")) &&
       (mem "new_str" || (!mem "new_string" && !mem "new_striing" && !mem "new")) then
      .ok (.arr xs)
    else .error ()
  | _ => .error ()

/-- Lines 157-171 as applied in the loop: normalization runs only for the
`edit_document` tool. -/
def normalizedArguments (name args : Json) : Except Unit Json :=
  if isEditDocument name then normEditAny args else .ok args

/-- What one loop iteration reports back to the user. -/
inductive TurnOutcome where
  | malformedOut : List Char → List Char → TurnOutcome
  | answered : Json → TurnOutcome
  | unhandled : Json → TurnOutcome
  | toolFailed : Json → String → TurnOutcome
  | synthesized : Json → Json → String → String → TurnOutcome
  | crashed : TurnOutcome

/-- One entry per external call made during the turn. -/
inductive Effect where
  | toolEff : Json → Json → Effect
  | synthEff : Effect

/-- Number of synthesis calls in an effect trace. -/
def countSynth (l : List Effect) : Nat :=
  (l.filter (fun e => match e with | .synthEff => true | _ => false)).length

/-- One iteration of the dispatch loop (src/tool_agent.py lines 128-211),
starting from the first model reply `raw`.
- parse failure: report raw and candidate text, `continue` (lines 134-143);
- answer directive: report the answer, `continue` (lines 146-150);
- tool directive: normalize, call the tool; on exception report tool name and
  reason and `continue` (lines 175-179); on success reduce the result text and
  make exactly one synthesis call (lines 181-206);
- neither key: report the raw object (lines 208-211). -/
def processTurn (R : Render) (parse : List Char → Option Json)
    (callTool : Json → Json → Except String CallToolResult)
    (synth : String → String) (raw : List Char) : TurnOutcome × List Effect :=
  let clean := extract_json_from_text raw
  match parse clean with
  | none => (.malformedOut raw clean, [])
  | some obj =>
    match classify obj with
    | .answerD v => (.answered v, [])
    | .unrecognizedD o => (.unhandled o, [])
    | .toolCallD name args =>
      match normalizedArguments name args with
      | .error _ => (.crashed, [])
      | .ok args' =>
        match callTool name args' with
        | .error e => (.toolFailed name e, [.toolEff name args'])
        | .ok res =>
          let t := extract_tool_result_text R res
          (.synthesized name args' t (synth t), [.toolEff name args', .synthEff])

/-! ## The document store (src/mcp_server.py, lines 10-58)

The in-memory store is a dict from document id to content; `edit_document`
checks membership, then performs Python `str.replace` (all non-overlapping
occurrences, left to right; an empty pattern inserts the replacement at every
gap) and writes the result back. -/

/-- The initial `docs` dict (src/mcp_server.py lines 10-17). -/
def docsInit : List (String × String) :=
  [("deposition.md", "This deposition covers the testimony of Angela Smith, P.E."),
   ("report.pdf", "The report details the state of a 20m condenser tower."),
   ("financials.docx", "These financials outline the project's budget and expenditures."),
   ("outlook.pdf", "This document presents the projected future performance of the system."),
   ("plan.md", "The plan outlines the steps for the project's implementation."),
   ("spec.txt", "These specifications define the technical requirements for the equipment.")]

/-- Fueled scan for `str.replace` with a non-empty pattern: at each position,
if the pattern matches, emit the replacement and jump past the match, else
keep the character.  Each step consumes at least one character, so `s.length`
is enough fuel. -/
def pyReplaceFuel (old new : List Char) : Nat → List Char → List Char
  | 0, s => s
  | _ + 1, [] => []
  | fuel + 1, c :: cs =>
    if old.isPrefixOf (c :: cs) then
      new ++ pyReplaceFuel old new fuel ((c :: cs).drop old.length)
    else c :: pyReplaceFuel old new fuel cs

/-- Python `s.replace(old, new)`: all non-overlapping occurrences, left to
right.  CPython replaces an empty pattern at every gap:
`"ab".replace("", "X") == "XaXbX"`. -/
def pyReplace (s old new : List Char) : List Char :=
  if old = [] then new ++ s.foldr (fun c acc => c :: (new ++ acc)) []
  else pyReplaceFuel old new s.length s

/-- String-level wrapper for `str.replace`. -/
def pyReplaceS (s old new : String) : String :=
  ⟨pyReplace s.toList old.toList new.toList⟩

/-- Translation of the `edit_document` tool (src/mcp_server.py lines 44-58):
missing id raises `ValueError` (store untouched); otherwise the document is
replaced by `docs[doc_id].replace(old_str, new_str)` in place.  Returns the
tool's result (or error) together with the store after the call. -/
def edit_document (docs : List (String × String)) (doc_id old_str new_str : String) :
    Except String String × List (String × String) :=
  match lookupKey doc_id docs with
  | none => (.error ("Doc with id " ++ doc_id ++ " not found"), docs)
  | some content =>
    let newContent := pyReplaceS content old_str new_str
    (.ok newContent, dictSet doc_id newContent docs)

/-! ## Spec-side definitions used to state claims -/

/-- Every character of `l` is Python whitespace. -/
def allWs (l : List Char) : Prop := ∀ c ∈ l, pyWs c = true

/-- Following the spec's words for extraction step 1 (refinement comparison
with `extract_json_from_text`): the text contains a fenced block whose opening
fence is tagged `json` and whose body is a single brace-delimited object —
the body starts with `{`, ends with `}`, and contains no fence delimiter,
and it is separated from the fences by whitespace only. -/
def specJsonFenceBody (s body : List Char) : Prop :=
  ∃ pre ws1 ws2 post,
    s = pre ++ jsonOpen ++ ws1 ++ body ++ ws2 ++ ticks ++ post ∧
    allWs ws1 ∧ allWs ws2 ∧
    body.head? = some '{' ∧ body.getLast? = some '}' ∧
    containsSub ticks body = false

/-- A text interleaving plain segments with complete reasoning blocks:
`a₀ [THINK] b₀ [/THINK] a₁ [THINK] b₁ [/THINK] ... tail`. -/
def withThinkBlocks : List (List Char × List Char) → List Char → List Char
  | [], tail => tail
  | (a, b) :: rest, tail =>
    a ++ thinkOpen ++ b ++ thinkClose ++ withThinkBlocks rest tail

/-- The text outside the reasoning blocks of `withThinkBlocks`:
`a₀ a₁ ... tail`. -/
def visibleParts : List (List Char × List Char) → List Char → List Char
  | [], tail => tail
  | (a, _) :: rest, tail => a ++ visibleParts rest tail

/-! # Lemmas about dict operations -/

theorem lookupKey_dictSet_self {α : Type} (k : String) (v : α) (l : List (String × α)) :
    lookupKey k (dictSet k v l) = some v := by
  induction l with
  | nil => simp [dictSet, lookupKey]
  | cons p rest ih =>
    obtain ⟨k', v'⟩ := p
    by_cases h : k' = k
    · simp [dictSet, h, lookupKey]
    · simp [dictSet, h, lookupKey, ih]

theorem lookupKey_dictSet_ne {α : Type} {a k : String} (h : a ≠ k) (v : α)
    (l : List (String × α)) : lookupKey a (dictSet k v l) = lookupKey a l := by
  have h' : k ≠ a := Ne.symm h
  induction l with
  | nil => simp [dictSet, lookupKey, h']
  | cons p rest ih =>
    obtain ⟨k', v'⟩ := p
    by_cases hk : k' = k
    · subst hk
      simp [dictSet, lookupKey, h']
    · simp [dictSet, hk, lookupKey, ih]

theorem lookupKey_popKey_ne {α : Type} {a k : String} (h : a ≠ k)
    (l : List (String × α)) : lookupKey a (popKey k l) = lookupKey a l := by
  have h' : k ≠ a := Ne.symm h
  induction l with
  | nil => simp [popKey]
  | cons p rest ih =>
    obtain ⟨k', v'⟩ := p
    by_cases hk : k' = k
    · subst hk
      simp [popKey, lookupKey, h']
    · simp [popKey, hk, lookupKey, ih]

theorem containsKey_eq_false_iff {α : Type} {k : String} {l : List (String × α)} :
    containsKey k l = false ↔ lookupKey k l = none := by
  unfold containsKey
  cases lookupKey k l <;> simp

theorem containsKey_of_mem_keys {α : Type} {k : String} {l : List (String × α)}
    (h : k ∈ l.map Prod.fst) : containsKey k l = true := by
  induction l with
  | nil => simp at h
  | cons p rest ih =>
    obtain ⟨k', v'⟩ := p
    by_cases hk : k' = k
    · simp [containsKey, lookupKey, hk]
    · simp only [List.map_cons, List.mem_cons] at h
      rcases h with h | h


      · exact absurd h.symm hk
      · simpa [containsKey, lookupKey, hk] using ih h

theorem mem_keys_of_containsKey {α : Type} {k : String} {l : List (String × α)}
    (h : containsKey k l = true) : k ∈ l.map Prod.fst := by
  induction l with
  | nil => simp [containsKey, lookupKey] at h
  | cons p rest ih =>
    obtain ⟨k', v'⟩ := p
    by_cases hk : k' = k
    · simp [hk]
    · simp only [containsKey, lookupKey, hk, if_false] at h
      simp [ih h]

theorem containsKey_popKey_self {α : Type} {k : String} {l : List (String × α)}
    (hnd : (l.map Prod.fst).Nodup) : containsKey k (popKey k l) = false := by
  induction l with
  | nil => simp [popKey, containsKey, lookupKey]
  | cons p rest ih =>
    obtain ⟨k', v'⟩ := p
    simp only [List.map_cons, List.nodup_cons] at hnd
    by_cases hk : k' = k
    · subst hk
      simp only [popKey, if_pos rfl, ite_true]
      cases h : containsKey k' rest with
      | false => rfl
      | true => exact absurd (mem_keys_of_containsKey h) hnd.1
    · have := containsKey_eq_false_iff.mp (ih hnd.2)
      rw [containsKey_eq_false_iff]
      simpa [popKey, hk, lookupKey] using this

theorem containsKey_dictSet_ne {α : Type} {a k : String} (h : a ≠ k) (v : α)
    (l : List (String × α)) : containsKey a (dictSet k v l) = containsKey a l := by
  simp [containsKey, lookupKey_dictSet_ne h]

theorem containsKey_popKey_ne {α : Type} {a k : String} (h : a ≠ k)
    (l : List (String × α)) : containsKey a (popKey k l) = containsKey a l := by
  simp [containsKey, lookupKey_popKey_ne h]

theorem keys_popKey_sublist {α : Type} (k : String) (l : List (String × α)) :
    ((popKey k l).map Prod.fst).Sublist (l.map Prod.fst) := by
  induction l with
  | nil => simp [popKey]
  | cons p rest ih =>
    obtain ⟨k', v'⟩ := p
    by_cases hk : k' = k
    · simp [popKey, hk]
    · simpa [popKey, hk] using ih.cons₂ k'

theorem nodup_keys_popKey {α : Type} {k : String} {l : List (String × α)}
    (hnd : (l.map Prod.fst).Nodup) : ((popKey k l).map Prod.fst).Nodup :=
  hnd.sublist (keys_popKey_sublist k l)

theorem mem_keys_dictSet {α : Type} {a k : String} {v : α} {l : List (String × α)} :
    a ∈ (dictSet k v l).map Prod.fst ↔ a = k ∨ a ∈ l.map Prod.fst := by
  induction l with
  | nil => simp [dictSet]
  | cons p rest ih =>
    obtain ⟨k', v'⟩ := p
    by_cases hk : k' = k
    · subst hk
      simp [dictSet]
    · simp [dictSet, hk, ih]
      tauto

theorem nodup_keys_dictSet {α : Type} {k : String} {v : α} {l : List (String × α)}
    (hnd : (l.map Prod.fst).Nodup) : ((dictSet k v l).map Prod.fst).Nodup := by
  induction l with
  | nil => simp [dictSet]
  | cons p rest ih =>
    obtain ⟨k', v'⟩ := p
    simp only [List.map_cons, List.nodup_cons] at hnd
    by_cases hk : k' = k
    · subst hk
      simp only [dictSet, if_pos rfl, ite_true, List.map_cons, List.nodup_cons]
      exact hnd
    · simp only [dictSet, hk, if_false, List.map_cons, List.nodup_cons]
      refine ⟨fun hmem => ?_, ih hnd.2⟩
      rcases mem_keys_dictSet.mp hmem with h | h
      · exact hk h
      · exact hnd.1 h

/-! # Lemmas about the edit_document argument normalization -/

theorem normOldSide_of_canonical {α : Type} {args : List (String × α)}
    (h1 : containsKey "old_str" args = true) : normOldSide args = args := by
  unfold normOldSide
  simp [h1]

theorem normOldSide_alias1 {α : Type} {args : List (String × α)} {v : α}
    (h1 : containsKey "old_str" args = false)
    (h2 : lookupKey "old_string" args = some v) :
    normOldSide args = dictSet "old_str" v (popKey "old_string" args) := by
  unfold normOldSide
  simp [h1, h2]

theorem normOldSide_alias2 {α : Type} {args : List (String × α)} {v : α}
    (h1 : containsKey "old_str" args = false)
    (h2 : lookupKey "old_string" args = none)
    (h3 : lookupKey "old" args = some v) :
    normOldSide args = dictSet "old_str" v (popKey "old" args) := by
  unfold normOldSide
  simp [h1, h2, h3]

theorem normOldSide_id {α : Type} {args : List (String × α)}
    (h1 : containsKey "old_str" args = false)
    (h2 : lookupKey "old_string" args = none)
    (h3 : lookupKey "old" args = none) : normOldSide args = args := by
  unfold normOldSide
  simp [h1, h2, h3]

theorem normNewSide_of_canonical {α : Type} {args : List (String × α)}
    (h1 : containsKey "new_str" args = true) : normNewSide args = args := by
  unfold normNewSide
  simp [h1]

theorem normNewSide_alias1 {α : Type} {args : List (String × α)} {v : α}
    (h1 : containsKey "new_str" args = false)
    (h2 : lookupKey "new_string" args = some v) :
    normNewSide args = dictSet "new_str" v (popKey "new_string" args) := by
  unfold normNewSide
  simp [h1, h2]

theorem normNewSide_alias2 {α : Type} {args : List (String × α)} {v : α}
    (h1 : containsKey "new_str" args = false)
    (h2 : lookupKey "new_string" args = none)
    (h3 : lookupKey "new_striing" args = some v) :
    normNewSide args = dictSet "new_str" v (popKey "new_striing" args) := by
  unfold normNewSide
  simp [h1, h2, h3]

theorem normNewSide_alias3 {α : Type} {args : List (String × α)} {v : α}
    (h1 : containsKey "new_str" args = false)
    (h2 : lookupKey "new_string" args = none)
    (h3 : lookupKey "new_striing" args = none)
    (h4 : lookupKey "new" args = some v) :
    normNewSide args = dictSet "new_str" v (popKey "new" args) := by
  unfold normNewSide
  simp [h1, h2, h3, h4]

theorem normNewSide_id {α : Type} {args : List (String × α)}
    (h1 : containsKey "new_str" args = false)
    (h2 : lookupKey "new_string" args = none)
    (h3 : lookupKey "new_striing" args = none)
    (h4 : lookupKey "new" args = none) : normNewSide args = args := by
  unfold normNewSide
  simp [h1, h2, h3, h4]

theorem lookupKey_normOldSide_other {α : Type} {a : String}
    (ha1 : a ≠ "old_str") (ha2 : a ≠ "old_string") (ha3 : a ≠ "old")
    (args : List (String × α)) :
    lookupKey a (normOldSide args) = lookupKey a args := by
  cases h1 : containsKey "old_str" args with
  | true => rw [normOldSide_of_canonical h1]
  | false =>
    cases h2 : lookupKey "old_string" args with
    | some v => rw [normOldSide_alias1 h1 h2, lookupKey_dictSet_ne ha1,
        lookupKey_popKey_ne ha2]
    | none =>
      cases h3 : lookupKey "old" args with
      | some v => rw [normOldSide_alias2 h1 h2 h3, lookupKey_dictSet_ne ha1,
          lookupKey_popKey_ne ha3]
      | none => rw [normOldSide_id h1 h2 h3]

theorem lookupKey_normNewSide_other {α : Type} {a : String}
    (ha1 : a ≠ "new_str") (ha2 : a ≠ "new_string") (ha3 : a ≠ "new_striing")
    (ha4 : a ≠ "new") (args : List (String × α)) :
    lookupKey a (normNewSide args) = lookupKey a args := by
  cases h1 : containsKey "new_str" args with
  | true => rw [normNewSide_of_canonical h1]
  | false =>
    cases h2 : lookupKey "new_string" args with
    | some v => rw [normNewSide_alias1 h1 h2, lookupKey_dictSet_ne ha1,
        lookupKey_popKey_ne ha2]
    | none =>
      cases h3 : lookupKey "new_striing" args with
      | some v => rw [normNewSide_alias2 h1 h2 h3, lookupKey_dictSet_ne ha1,
          lookupKey_popKey_ne ha3]
      | none =>
        cases h4 : lookupKey "new" args with
        | some v => rw [normNewSide_alias3 h1 h2 h3 h4, lookupKey_dictSet_ne ha1,
            lookupKey_popKey_ne ha4]
        | none => rw [normNewSide_id h1 h2 h3 h4]

theorem containsKey_normOldSide_other {α : Type} {a : String}
    (ha1 : a ≠ "old_str") (ha2 : a ≠ "old_string") (ha3 : a ≠ "old")
    (args : List (String × α)) :
    containsKey a (normOldSide args) = containsKey a args := by
  simp [containsKey, lookupKey_normOldSide_other ha1 ha2 ha3]

theorem containsKey_normNewSide_other {α : Type} {a : String}
    (ha1 : a ≠ "new_str") (ha2 : a ≠ "new_string") (ha3 : a ≠ "new_striing")
    (ha4 : a ≠ "new") (args : List (String × α)) :
    containsKey a (normNewSide args) = containsKey a args := by
  simp [containsKey, lookupKey_normNewSide_other ha1 ha2 ha3 ha4]

theorem nodup_keys_normOldSide {α : Type} {args : List (String × α)}
    (hnd : (args.map Prod.fst).Nodup) :
    ((normOldSide args).map Prod.fst).Nodup := by
  cases h1 : containsKey "old_str" args with
  | true => rw [normOldSide_of_canonical h1]; exact hnd
  | false =>
    cases h2 : lookupKey "old_string" args with
    | some v => rw [normOldSide_alias1 h1 h2]; exact nodup_keys_dictSet (nodup_keys_popKey hnd)
    | none =>
      cases h3 : lookupKey "old" args with
      | some v => rw [normOldSide_alias2 h1 h2 h3]; exact nodup_keys_dictSet (nodup_keys_popKey hnd)
      | none => rw [normOldSide_id h1 h2 h3]; exact hnd

theorem normOldSide_alias_free {α : Type} {args : List (String × α)}
    (hnd : (args.map Prod.fst).Nodup)
    (hO : ¬(containsKey "old_str" args = true ∧
      (containsKey "old_string" args = true ∨ containsKey "old" args = true)))
    (hOO : ¬(containsKey "old_string" args = true ∧ containsKey "old" args = true)) :
    containsKey "old_string" (normOldSide args) = false ∧
    containsKey "old" (normOldSide args) = false := by
  cases h1 : containsKey "old_str" args with
  | true =>
    rw [normOldSide_of_canonical h1]
    constructor
    · cases h2 : containsKey "old_string" args with
      | false => rfl
      | true => exact absurd ⟨h1, Or.inl h2⟩ hO
    · cases h3 : containsKey "old" args with
      | false => rfl
      | true => exact absurd ⟨h1, Or.inr h3⟩ hO
  | false =>
    cases h2 : lookupKey "old_string" args with
    | some v =>
      rw [normOldSide_alias1 h1 h2]
      constructor
      · rw [containsKey_dictSet_ne (by decide)]
        exact containsKey_popKey_self hnd
      · rw [containsKey_dictSet_ne (by decide), containsKey_popKey_ne (by decide)]
        have hs : containsKey "old_string" args = true := by simp [containsKey, h2]
        cases h3 : containsKey "old" args with
        | false => rfl
        | true => exact absurd ⟨hs, h3⟩ hOO
    | none =>
      cases h3 : lookupKey "old" args with
      | some v =>
        rw [normOldSide_alias2 h1 h2 h3]
        constructor
        · rw [containsKey_dictSet_ne (by decide), containsKey_popKey_ne (by decide)]
          exact containsKey_eq_false_iff.mpr h2
        · rw [containsKey_dictSet_ne (by decide)]
          exact containsKey_popKey_self hnd
      | none =>
        rw [normOldSide_id h1 h2 h3]
        exact ⟨containsKey_eq_false_iff.mpr h2, containsKey_eq_false_iff.mpr h3⟩

theorem normNewSide_alias_free {α : Type} {args : List (String × α)}
    (hnd : (args.map Prod.fst).Nodup)
    (hN : ¬(containsKey "new_str" args = true ∧
      (containsKey "new_string" args = true ∨ containsKey "new_striing" args = true ∨
        containsKey "new" args = true)))
    (hNN1 : ¬(containsKey "new_string" args = true ∧ containsKey "new_striing" args = true))
    (hNN2 : ¬(containsKey "new_string" args = true ∧ containsKey "new" args = true))
    (hNN3 : ¬(containsKey "new_striing" args = true ∧ containsKey "new" args = true)) :
    containsKey "new_string" (normNewSide args) = false ∧
    containsKey "new_striing" (normNewSide args) = false ∧
    containsKey "new" (normNewSide args) = false := by
  cases h1 : containsKey "new_str" args with
  | true =>
    rw [normNewSide_of_canonical h1]
    refine ⟨?_, ?_, ?_⟩
    · cases h2 : containsKey "new_string" args with
      | false => rfl
      | true => exact absurd ⟨h1, Or.inl h2⟩ hN
    · cases h2 : containsKey "new_striing" args with
      | false => rfl
      | true => exact absurd ⟨h1, Or.inr (Or.inl h2)⟩ hN
    · cases h2 : containsKey "new" args with
      | false => rfl
      | true => exact absurd ⟨h1, Or.inr (Or.inr h2)⟩ hN
  | false =>
    cases h2 : lookupKey "new_string" args with
    | some v =>
      have hs : containsKey "new_string" args = true := by simp [containsKey, h2]
      rw [normNewSide_alias1 h1 h2]
      refine ⟨?_, ?_, ?_⟩
      · rw [containsKey_dictSet_ne (by decide)]
        exact containsKey_popKey_self hnd
      · rw [containsKey_dictSet_ne (by decide), containsKey_popKey_ne (by decide)]
        cases h3 : containsKey "new_striing" args with
        | false => rfl
        | true => exact absurd ⟨hs, h3⟩ hNN1
      · rw [containsKey_dictSet_ne (by decide), containsKey_popKey_ne (by decide)]
        cases h3 : containsKey "new" args with
        | false => rfl
        | true => exact absurd ⟨hs, h3⟩ hNN2
    | none =>
      cases h3 : lookupKey "new_striing" args with
      | some v =>
        have hs : containsKey "new_striing" args = true := by simp [containsKey, h3]
        rw [normNewSide_alias2 h1 h2 h3]
        refine ⟨?_, ?_, ?_⟩
        · rw [containsKey_dictSet_ne (by decide), containsKey_popKey_ne (by decide)]
          exact containsKey_eq_false_iff.mpr h2
        · rw [containsKey_dictSet_ne (by decide)]
          exact containsKey_popKey_self hnd
        · rw [containsKey_dictSet_ne (by decide), containsKey_popKey_ne (by decide)]
          cases h4 : containsKey "new" args with
          | false => rfl
          | true => exact absurd ⟨hs, h4⟩ hNN3
      | none =>
        cases h4 : lookupKey "new" args with
        | some v =>
          rw [normNewSide_alias3 h1 h2 h3 h4]
          refine ⟨?_, ?_, ?_⟩
          · rw [containsKey_dictSet_ne (by decide), containsKey_popKey_ne (by decide)]
            exact containsKey_eq_false_iff.mpr h2
          · rw [containsKey_dictSet_ne (by decide), containsKey_popKey_ne (by decide)]
            exact containsKey_eq_false_iff.mpr h3
          · rw [containsKey_dictSet_ne (by decide)]
            exact containsKey_popKey_self hnd
        | none =>
          rw [normNewSide_id h1 h2 h3 h4]
          exact ⟨containsKey_eq_false_iff.mpr h2, containsKey_eq_false_iff.mpr h3,
            containsKey_eq_false_iff.mpr h4⟩

theorem lookupKey_normOldSide_cases {α : Type} {args : List (String × α)} {k : String}
    {v : α} (hnd : (args.map Prod.fst).Nodup)
    (h : lookupKey k (normOldSide args) = some v) :
    lookupKey k args = some v ∨
    (k = "old_str" ∧ (lookupKey "old_string" args = some v ∨ lookupKey "old" args = some v)) := by
  cases h1 : containsKey "old_str" args with
  | true => rw [normOldSide_of_canonical h1] at h; exact Or.inl h
  | false =>
    cases h2 : lookupKey "old_string" args with
    | some w =>
      rw [normOldSide_alias1 h1 h2] at h
      by_cases hk : k = "old_str"
      · subst hk
        rw [lookupKey_dictSet_self] at h
        exact Or.inr ⟨rfl, Or.inl h⟩
      · rw [lookupKey_dictSet_ne hk] at h
        by_cases hk2 : k = "old_string"
        · subst hk2
          rw [containsKey_eq_false_iff.mp (containsKey_popKey_self hnd)] at h
          exact absurd h (by simp)
        · rw [lookupKey_popKey_ne hk2] at h
          exact Or.inl h
    | none =>
      cases h3 : lookupKey "old" args with
      | some w =>
        rw [normOldSide_alias2 h1 h2 h3] at h
        by_cases hk : k = "old_str"
        · subst hk
          rw [lookupKey_dictSet_self] at h
          exact Or.inr ⟨rfl, Or.inr h⟩
        · rw [lookupKey_dictSet_ne hk] at h
          by_cases hk2 : k = "old"
          · subst hk2
            rw [containsKey_eq_false_iff.mp (containsKey_popKey_self hnd)] at h
            exact absurd h (by simp)
          · rw [lookupKey_popKey_ne hk2] at h
            exact Or.inl h
      | none =>
        rw [normOldSide_id h1 h2 h3] at h
        exact Or.inl h

theorem lookupKey_normNewSide_cases {α : Type} {args : List (String × α)} {k : String}
    {v : α} (hnd : (args.map Prod.fst).Nodup)
    (h : lookupKey k (normNewSide args) = some v) :
    lookupKey k args = some v ∨
    (k = "new_str" ∧ (lookupKey "new_string" args = some v ∨
      lookupKey "new_striing" args = some v ∨ lookupKey "new" args = some v)) := by
  cases h1 : containsKey "new_str" args with
  | true => rw [normNewSide_of_canonical h1] at h; exact Or.inl h
  | false =>
    cases h2 : lookupKey "new_string" args with
    | some w =>
      rw [normNewSide_alias1 h1 h2] at h
      by_cases hk : k = "new_str"
      · subst hk
        rw [lookupKey_dictSet_self] at h
        exact Or.inr ⟨rfl, Or.inl h⟩
      · rw [lookupKey_dictSet_ne hk] at h
        by_cases hk2 : k = "new_string"
        · subst hk2
          rw [containsKey_eq_false_iff.mp (containsKey_popKey_self hnd)] at h
          exact absurd h (by simp)
        · rw [lookupKey_popKey_ne hk2] at h
          exact Or.inl h
    | none =>
      cases h3 : lookupKey "new_striing" args with
      | some w =>
        rw [normNewSide_alias2 h1 h2 h3] at h
        by_cases hk : k = "new_str"
        · subst hk
          rw [lookupKey_dictSet_self] at h
          exact Or.inr ⟨rfl, Or.inr (Or.inl h)⟩
        · rw [lookupKey_dictSet_ne hk] at h
          by_cases hk2 : k = "new_striing"
          · subst hk2
            rw [containsKey_eq_false_iff.mp (containsKey_popKey_self hnd)] at h
            exact absurd h (by simp)
          · rw [lookupKey_popKey_ne hk2] at h
            exact Or.inl h
      | none =>
        cases h4 : lookupKey "new" args with
        | some w =>
          rw [normNewSide_alias3 h1 h2 h3 h4] at h
          by_cases hk : k = "new_str"
          · subst hk
            rw [lookupKey_dictSet_self] at h
            exact Or.inr ⟨rfl, Or.inr (Or.inr h)⟩
          · rw [lookupKey_dictSet_ne hk] at h
            by_cases hk2 : k = "new"
            · subst hk2
              rw [containsKey_eq_false_iff.mp (containsKey_popKey_self hnd)] at h
              exact absurd h (by simp)
            · rw [lookupKey_popKey_ne hk2] at h
              exact Or.inl h
        | none =>
          rw [normNewSide_id h1 h2 h3 h4] at h
          exact Or.inl h

/-! # Claims C1, C4, C5 -/

/-- Claim C1 counterexample: the claim says no alias key survives
normalization for every combination of alias and canonical keys, including
when a canonical key and one of its aliases are both present.  But when
`old_str` is already present, the source skips the whole `old` block and the
alias `old_string` survives in the mapping. -/
theorem c1_counterexample :
    normalize_edit_args [("old_str", "a"), ("old_string", "b")]
      = [("old_str", "a"), ("old_string", "b")] ∧
    containsKey "old_string"
      (normalize_edit_args [("old_str", "a"), ("old_string", "b")]) = true := by
  exact ⟨rfl, rfl⟩

/-- Claim C1 (amended): after normalization of an `edit_document` arguments
mapping, no alias key (`old_string`, `old`, `new_string`, `new_striing`,
`new`) remains, provided that for each canonical parameter the mapping does
not contain the canonical key together with one of its aliases and contains
at most one alias of that parameter.  (When a canonical key coexists with an
alias, or two aliases of the same parameter coexist, the lower-priority key
survives, as the counterexample shows.) -/
theorem c1_no_alias_survives {α : Type} (args : List (String × α))
    (hnd : (args.map Prod.fst).Nodup)
    (hO : ¬(containsKey "old_str" args = true ∧
      (containsKey "old_string" args = true ∨ containsKey "old" args = true)))
    (hOO : ¬(containsKey "old_string" args = true ∧ containsKey "old" args = true))
    (hN : ¬(containsKey "new_str" args = true ∧
      (containsKey "new_string" args = true ∨ containsKey "new_striing" args = true ∨
        containsKey "new" args = true)))
    (hNN1 : ¬(containsKey "new_string" args = true ∧ containsKey "new_striing" args = true))
    (hNN2 : ¬(containsKey "new_string" args = true ∧ containsKey "new" args = true))
    (hNN3 : ¬(containsKey "new_striing" args = true ∧ containsKey "new" args = true)) :
    containsKey "old_string" (normalize_edit_args args) = false ∧
    containsKey "old" (normalize_edit_args args) = false ∧
    containsKey "new_string" (normalize_edit_args args) = false ∧
    containsKey "new_striing" (normalize_edit_args args) = false ∧
    containsKey "new" (normalize_edit_args args) = false := by
  unfold normalize_edit_args
  have hnd1 : ((normOldSide args).map Prod.fst).Nodup := nodup_keys_normOldSide hnd
  have hold := normOldSide_alias_free hnd hO hOO
  have e1 : containsKey "new_str" (normOldSide args) = containsKey "new_str" args :=
    containsKey_normOldSide_other (by decide) (by decide) (by decide) args
  have e2 : containsKey "new_string" (normOldSide args) = containsKey "new_string" args :=
    containsKey_normOldSide_other (by decide) (by decide) (by decide) args
  have e3 : containsKey "new_striing" (normOldSide args) = containsKey "new_striing" args :=
    containsKey_normOldSide_other (by decide) (by decide) (by decide) args
  have e4 : containsKey "new" (normOldSide args) = containsKey "new" args :=
    containsKey_normOldSide_other (by decide) (by decide) (by decide) args
  have hnew := normNewSide_alias_free hnd1
    (by rw [e1, e2, e3, e4]; exact hN) (by rw [e2, e3]; exact hNN1)
    (by rw [e2, e4]; exact hNN2) (by rw [e3, e4]; exact hNN3)
  refine ⟨?_, ?_, hnew.1, hnew.2.1, hnew.2.2⟩
  · rw [containsKey_normNewSide_other (by decide) (by decide) (by decide) (by decide)]
    exact hold.1
  · rw [containsKey_normNewSide_other (by decide) (by decide) (by decide) (by decide)]
    exact hold.2

/-- Witness for the amended claim C1 at a concrete input. -/
theorem c1_no_alias_survives_witness :
    containsKey "old_string" (normalize_edit_args [("old_string", "x"), ("new", "y")]) = false ∧
    containsKey "old" (normalize_edit_args [("old_string", "x"), ("new", "y")]) = false ∧
    containsKey "new_string" (normalize_edit_args [("old_string", "x"), ("new", "y")]) = false ∧
    containsKey "new_striing" (normalize_edit_args [("old_string", "x"), ("new", "y")]) = false ∧
    containsKey "new" (normalize_edit_args [("old_string", "x"), ("new", "y")]) = false :=
  c1_no_alias_survives [("old_string", "x"), ("new", "y")] (by decide) (by decide)
    (by decide) (by decide) (by decide) (by decide) (by decide)

/-- Claim C4: for the `edit_document` tool, aliases are consulted in priority
order (`old_string` before `old`; `new_string`, then `new_striing`, then
`new`), each matched alias key is removed and its value inserted under the
canonical key, and the two concrete normalizations from the spec yield
exactly the canonical mappings. -/
theorem c4_alias_priority :
    (∀ {α : Type} (args : List (String × α)) (v : α), (args.map Prod.fst).Nodup →
      containsKey "old_str" args = false →
      lookupKey "old_string" args = some v →
      lookupKey "old_str" (normalize_edit_args args) = some v ∧
      containsKey "old_string" (normalize_edit_args args) = false) ∧
    (∀ {α : Type} (args : List (String × α)) (v : α), (args.map Prod.fst).Nodup →
      containsKey "old_str" args = false →
      lookupKey "old_string" args = none →
      lookupKey "old" args = some v →
      lookupKey "old_str" (normalize_edit_args args) = some v ∧
      containsKey "old" (normalize_edit_args args) = false) ∧
    (∀ {α : Type} (args : List (String × α)) (v : α), (args.map Prod.fst).Nodup →
      containsKey "new_str" args = false →
      lookupKey "new_string" args = some v →
      lookupKey "new_str" (normalize_edit_args args) = some v ∧
      containsKey "new_string" (normalize_edit_args args) = false) ∧
    (∀ {α : Type} (args : List (String × α)) (v : α), (args.map Prod.fst).Nodup →
      containsKey "new_str" args = false →
      lookupKey "new_string" args = none →
      lookupKey "new_striing" args = some v →
      lookupKey "new_str" (normalize_edit_args args) = some v ∧
      containsKey "new_striing" (normalize_edit_args args) = false) ∧
    (∀ {α : Type} (args : List (String × α)) (v : α), (args.map Prod.fst).Nodup →
      containsKey "new_str" args = false →
      lookupKey "new_string" args = none →
      lookupKey "new_striing" args = none →
      lookupKey "new" args = some v →
      lookupKey "new_str" (normalize_edit_args args) = some v ∧
      containsKey "new" (normalize_edit_args args) = false) ∧
    normalize_edit_args [("old_string", "foo"), ("new", "bar")]
      = [("old_str", "foo"), ("new_str", "bar")] ∧
    normalize_edit_args [("old_string", "foo"), ("new_striing", "bar")]
      = [("old_str", "foo"), ("new_str", "bar")] := by
  refine ⟨?_, ?_, ?_, ?_, ?_, rfl, rfl⟩
  · intro α args v hnd h1 h2
    unfold normalize_edit_args
    rw [normOldSide_alias1 h1 h2]
    constructor
    · rw [lookupKey_normNewSide_other (by decide) (by decide) (by decide) (by decide),
        lookupKey_dictSet_self]
    · rw [containsKey_normNewSide_other (by decide) (by decide) (by decide) (by decide),
        containsKey_dictSet_ne (by decide)]
      exact containsKey_popKey_self hnd
  · intro α args v hnd h1 h2 h3
    unfold normalize_edit_args
    rw [normOldSide_alias2 h1 h2 h3]
    constructor
    · rw [lookupKey_normNewSide_other (by decide) (by decide) (by decide) (by decide),
        lookupKey_dictSet_self]
    · rw [containsKey_normNewSide_other (by decide) (by decide) (by decide) (by decide),
        containsKey_dictSet_ne (by decide)]
      exact containsKey_popKey_self hnd
  · intro α args v hnd h1 h2
    unfold normalize_edit_args
    have hnd1 : ((normOldSide args).map Prod.fst).Nodup := nodup_keys_normOldSide hnd
    have h1' : containsKey "new_str" (normOldSide args) = false := by
      rw [containsKey_normOldSide_other (by decide) (by decide) (by decide)]; exact h1
    have h2' : lookupKey "new_string" (normOldSide args) = some v := by
      rw [lookupKey_normOldSide_other (by decide) (by decide) (by decide)]; exact h2
    rw [normNewSide_alias1 h1' h2']
    constructor
    · rw [lookupKey_dictSet_self]
    · rw [containsKey_dictSet_ne (by decide)]
      exact containsKey_popKey_self hnd1
  · intro α args v hnd h1 h2 h3
    unfold normalize_edit_args
    have hnd1 : ((normOldSide args).map Prod.fst).Nodup := nodup_keys_normOldSide hnd
    have h1' : containsKey "new_str" (normOldSide args) = false := by
      rw [containsKey_normOldSide_other (by decide) (by decide) (by decide)]; exact h1
    have h2' : lookupKey "new_string" (normOldSide args) = none := by
      rw [lookupKey_normOldSide_other (by decide) (by decide) (by decide)]; exact h2
    have h3' : lookupKey "new_striing" (normOldSide args) = some v := by
      rw [lookupKey_normOldSide_other (by decide) (by decide) (by decide)]; exact h3
    rw [normNewSide_alias2 h1' h2' h3']
    constructor
    · rw [lookupKey_dictSet_self]
    · rw [containsKey_dictSet_ne (by decide)]
      exact containsKey_popKey_self hnd1
  · intro α args v hnd h1 h2 h3 h4
    unfold normalize_edit_args
    have hnd1 : ((normOldSide args).map Prod.fst).Nodup := nodup_keys_normOldSide hnd
    have h1' : containsKey "new_str" (normOldSide args) = false := by
      rw [containsKey_normOldSide_other (by decide) (by decide) (by decide)]; exact h1
    have h2' : lookupKey "new_string" (normOldSide args) = none := by
      rw [lookupKey_normOldSide_other (by decide) (by decide) (by decide)]; exact h2
    have h3' : lookupKey "new_striing" (normOldSide args) = none := by
      rw [lookupKey_normOldSide_other (by decide) (by decide) (by decide)]; exact h3
    have h4' : lookupKey "new" (normOldSide args) = some v := by
      rw [lookupKey_normOldSide_other (by decide) (by decide) (by decide)]; exact h4
    rw [normNewSide_alias3 h1' h2' h3' h4']
    constructor
    · rw [lookupKey_dictSet_self]
    · rw [containsKey_dictSet_ne (by decide)]
      exact containsKey_popKey_self hnd1

/-- Witness for claim C4 at a concrete input. -/
theorem c4_alias_priority_witness :
    lookupKey "old_str" (normalize_edit_args [("old_string", "foo"), ("new", "bar")])
      = some "foo" ∧
    containsKey "old_string"
      (normalize_edit_args [("old_string", "foo"), ("new", "bar")]) = false :=
  c4_alias_priority.1 [("old_string", "foo"), ("new", "bar")] "foo"
    (by decide) (by decide) (by decide)

/-- Claim C5: normalization is idempotent on canonical input (a mapping whose
keys are all canonical is left unchanged) and never invents parameters (every
key/value of the output was supplied in the input under the canonical name or
one of its accepted aliases). -/
theorem c5_idempotence_and_no_invention :
    (∀ {α : Type} (args : List (String × α)),
      (∀ k ∈ args.map Prod.fst, k = "old_str" ∨ k = "new_str") →
      normalize_edit_args args = args) ∧
    (∀ {α : Type} (args : List (String × α)) (k : String) (v : α),
      (args.map Prod.fst).Nodup →
      lookupKey k (normalize_edit_args args) = some v →
      lookupKey k args = some v ∨
      (k = "old_str" ∧
        (lookupKey "old_string" args = some v ∨ lookupKey "old" args = some v)) ∨
      (k = "new_str" ∧ (lookupKey "new_string" args = some v ∨
        lookupKey "new_striing" args = some v ∨ lookupKey "new" args = some v))) := by
  constructor
  · intro α args h
    have habs : ∀ a : String, a ≠ "old_str" → a ≠ "new_str" →
        lookupKey a args = none := by
      intro a ha1 ha2
      cases hc : containsKey a args with
      | false => exact containsKey_eq_false_iff.mp hc
      | true =>
        rcases h a (mem_keys_of_containsKey hc) with h' | h'
        · exact absurd h' ha1
        · exact absurd h' ha2
    have hOeq : normOldSide args = args := by
      cases h1 : containsKey "old_str" args with
      | true => exact normOldSide_of_canonical h1
      | false =>
        exact normOldSide_id h1 (habs _ (by decide) (by decide))
          (habs _ (by decide) (by decide))
    have hNeq : normNewSide args = args := by
      cases h1 : containsKey "new_str" args with
      | true => exact normNewSide_of_canonical h1
      | false =>
        exact normNewSide_id h1 (habs _ (by decide) (by decide))
          (habs _ (by decide) (by decide)) (habs _ (by decide) (by decide))
    unfold normalize_edit_args
    rw [hOeq, hNeq]
  · intro α args k v hnd h
    unfold normalize_edit_args at h
    have hnd1 : ((normOldSide args).map Prod.fst).Nodup := nodup_keys_normOldSide hnd
    rcases lookupKey_normNewSide_cases hnd1 h with h' | ⟨hk, h'⟩
    · rcases lookupKey_normOldSide_cases hnd h' with h'' | ⟨hk2, h''⟩
      · exact Or.inl h''
      · exact Or.inr (Or.inl ⟨hk2, h''⟩)
    · refine Or.inr (Or.inr ⟨hk, ?_⟩)
      rcases h' with h' | h' | h'
      · rw [lookupKey_normOldSide_other (by decide) (by decide) (by decide)] at h'
        exact Or.inl h'
      · rw [lookupKey_normOldSide_other (by decide) (by decide) (by decide)] at h'
        exact Or.inr (Or.inl h')
      · rw [lookupKey_normOldSide_other (by decide) (by decide) (by decide)] at h'
        exact Or.inr (Or.inr h')

/-- Witness for claim C5 at a concrete canonical input. -/
theorem c5_idempotence_witness :
    normalize_edit_args [("old_str", "x"), ("new_str", "y")]
      = [("old_str", "x"), ("new_str", "y")] :=
  c5_idempotence_and_no_invention.1 [("old_str", "x"), ("new_str", "y")] (by decide)

/-! # Claim C3 -/

/-- Claim C3 counterexample: the claim says the ToolCall directive carries
the value of `"arguments"`, defaulting to the empty mapping only when the key
is absent.  But `obj.get("arguments", {}) or {}` also replaces a present but
falsy value: for `{"tool": "t", "arguments": null}` the key is present with
value `null`, yet the directive carries the empty mapping, not `null`. -/
theorem c3_counterexample :
    lookupKey "arguments" [("tool", Json.str "t"), ("arguments", Json.null)]
      = some Json.null ∧
    classify (Json.obj [("tool", Json.str "t"), ("arguments", Json.null)])
      = Directive.toolCallD (Json.str "t") (Json.obj []) ∧
    Json.obj ([] : List (String × Json)) ≠ Json.null := by
  refine ⟨rfl, rfl, ?_⟩
  intro h
  exact Json.noConfusion h

/-- Claim C3 (amended): a mapping with an `"answer"` key and no `"tool"` key
classifies as Answer with the value of `"answer"`; a mapping with a `"tool"`
key classifies as ToolCall with that tool name and the value of
`"arguments"`, defaulting to the empty mapping when the key is absent or its
value is falsy (null, false, 0, empty string, empty array, empty mapping);
any other shape (mapping with neither key, or a non-mapping value) is
surfaced as an unrecognized directive, distinct from Malformed, carrying the
raw parsed object, with no crash and no tool or synthesis call made. -/
theorem c3_classification :
    (∀ (kvs : List (String × Json)) (v : Json),
      lookupKey "answer" kvs = some v → containsKey "tool" kvs = false →
      classify (.obj kvs) = .answerD v) ∧
    (∀ (kvs : List (String × Json)) (n : Json),
      lookupKey "tool" kvs = some n → lookupKey "arguments" kvs = none →
      classify (.obj kvs) = .toolCallD n (.obj [])) ∧
    (∀ (kvs : List (String × Json)) (n a : Json),
      lookupKey "tool" kvs = some n → lookupKey "arguments" kvs = some a →
      a.truthy = true → classify (.obj kvs) = .toolCallD n a) ∧
    (∀ (kvs : List (String × Json)) (n a : Json),
      lookupKey "tool" kvs = some n → lookupKey "arguments" kvs = some a →
      a.truthy = false → classify (.obj kvs) = .toolCallD n (.obj [])) ∧
    (∀ (kvs : List (String × Json)),
      containsKey "answer" kvs = false → containsKey "tool" kvs = false →
      classify (.obj kvs) = .unrecognizedD (.obj kvs)) ∧
    (∀ (j : Json), (∀ kvs, j ≠ .obj kvs) → classify j = .unrecognizedD j) ∧
    (∀ (R : Render) (parse : List Char → Option Json)
      (callTool : Json → Json → Except String CallToolResult)
      (synth : String → String) (raw : List Char) (obj o : Json),
      parse (extract_json_from_text raw) = some obj →
      classify obj = .unrecognizedD o →
      processTurn R parse callTool synth raw = (.unhandled o, [])) ∧
    (∀ (R : Render) (parse : List Char → Option Json)
      (callTool : Json → Json → Except String CallToolResult)
      (synth : String → String) (raw : List Char) (obj v : Json),
      parse (extract_json_from_text raw) = some obj →
      classify obj = .answerD v →
      processTurn R parse callTool synth raw = (.answered v, [])) := by
  refine ⟨?_, ?_, ?_, ?_, ?_, ?_, ?_, ?_⟩
  · intro kvs v h hT
    simp [classify, containsKey, h, containsKey_eq_false_iff.mp hT]
  · intro kvs n h h2
    simp [classify, containsKey, h, h2, pyOr, Json.truthy]
  · intro kvs n a h h2 ht
    simp [classify, containsKey, h, h2, pyOr, ht]
  · intro kvs n a h h2 ht
    simp [classify, containsKey, h, h2, pyOr, ht]
  · intro kvs hA hT
    simp [classify, containsKey, containsKey_eq_false_iff.mp hA,
      containsKey_eq_false_iff.mp hT]
  · intro j h
    cases j with
    | obj kvs => exact absurd rfl (h kvs)
    | null => rfl
    | bool b => rfl
    | num n => rfl
    | str s => rfl
    | arr xs => rfl
  · intro R parse callTool synth raw obj o hp hc
    simp [processTurn, hp, hc]
  · intro R parse callTool synth raw obj v hp hc
    simp [processTurn, hp, hc]

/-- Witness for claim C3 at concrete parsed values. -/
theorem c3_classification_witness :
    classify (.obj [("answer", Json.str "X")]) = .answerD (Json.str "X") :=
  c3_classification.1 [("answer", Json.str "X")] (Json.str "X") rfl rfl

/-! # Claims C6 and C7 -/

/-- Claim C6: when the extracted candidate text fails to parse as JSON, the
turn yields the malformed outcome carrying the raw reply text (and the
candidate), makes no tool call and no synthesis call, and the (total) turn
function simply returns, leaving the loop to await the next input. -/
theorem c6_malformed_recoverable (R : Render) (parse : List Char → Option Json)
    (callTool : Json → Json → Except String CallToolResult)
    (synth : String → String) (raw : List Char)
    (h : parse (extract_json_from_text raw) = none) :
    processTurn R parse callTool synth raw
      = (.malformedOut raw (extract_json_from_text raw), []) := by
  simp [processTurn, h]

/-- Witness for claim C6 on the spec's Scenario B reply. -/
theorem c6_malformed_recoverable_witness :
    processTurn ⟨fun _ => "", fun _ => "", fun _ => ""⟩ (fun _ => none)
      (fun _ _ => .error "") (fun s => s) "Lo siento, no puedo ayudar.".toList
      = (.malformedOut "Lo siento, no puedo ayudar.".toList
          (extract_json_from_text "Lo siento, no puedo ayudar.".toList), []) :=
  c6_malformed_recoverable _ _ _ _ _ rfl

/-- Claim C7: when the tool invocation fails, the turn reports the tool name
and the failure reason, makes no synthesis call, and returns; when it
succeeds, exactly one synthesis call is made; a synthesis call happens in a
turn exactly when that turn's outcome is a successful synthesis. -/
theorem c7_tool_failure_no_synthesis :
    (∀ (R : Render) (parse : List Char → Option Json)
      (callTool : Json → Json → Except String CallToolResult)
      (synth : String → String) (raw : List Char) (obj name args args' : Json)
      (e : String),
      parse (extract_json_from_text raw) = some obj →
      classify obj = .toolCallD name args →
      normalizedArguments name args = .ok args' →
      callTool name args' = .error e →
      processTurn R parse callTool synth raw
        = (.toolFailed name e, [.toolEff name args'])) ∧
    (∀ (R : Render) (parse : List Char → Option Json)
      (callTool : Json → Json → Except String CallToolResult)
      (synth : String → String) (raw : List Char) (obj name args args' : Json)
      (res : CallToolResult),
      parse (extract_json_from_text raw) = some obj →
      classify obj = .toolCallD name args →
      normalizedArguments name args = .ok args' →
      callTool name args' = .ok res →
      processTurn R parse callTool synth raw
        = (.synthesized name args' (extract_tool_result_text R res)
            (synth (extract_tool_result_text R res)),
           [.toolEff name args', .synthEff])) ∧
    (∀ (R : Render) (parse : List Char → Option Json)
      (callTool : Json → Json → Except String CallToolResult)
      (synth : String → String) (raw : List Char),
      countSynth (processTurn R parse callTool synth raw).2 ≤ 1 ∧
      (countSynth (processTurn R parse callTool synth raw).2 = 1 ↔
        ∃ name args' t a,
          (processTurn R parse callTool synth raw).1 = .synthesized name args' t a)) := by
  refine ⟨?_, ?_, ?_⟩
  · intro R parse callTool synth raw obj name args args' e hp hc hn hcall
    simp [processTurn, hp, hc, hn, hcall]
  · intro R parse callTool synth raw obj name args args' res hp hc hn hcall
    simp [processTurn, hp, hc, hn, hcall]
  · intro R parse callTool synth raw
    cases hp : parse (extract_json_from_text raw) with
    | none => simp [processTurn, hp, countSynth]
    | some obj =>
      cases hc : classify obj with
      | answerD v => simp [processTurn, hp, hc, countSynth]
      | unrecognizedD o => simp [processTurn, hp, hc, countSynth]
      | toolCallD name args =>
        cases hn : normalizedArguments name args with
        | error u => simp [processTurn, hp, hc, hn, countSynth]
        | ok args' =>
          cases hcall : callTool name args' with
          | error e => simp [processTurn, hp, hc, hn, hcall, countSynth, List.filter]
          | ok res => simp [processTurn, hp, hc, hn, hcall, countSynth, List.filter]

/-- Witness for claim C7 on the spec's Scenario C (tool call that throws). -/
theorem c7_tool_failure_witness :
    processTurn ⟨fun _ => "", fun _ => "", fun _ => ""⟩
      (fun _ => some (Json.obj [("tool", Json.str "unknown_tool")]))
      (fun _ _ => .error "boom") (fun s => s) "x".toList
      = (.toolFailed (Json.str "unknown_tool") "boom",
         [.toolEff (Json.str "unknown_tool") (Json.obj [])]) :=
  c7_tool_failure_no_synthesis.1 _ _ _ _ "x".toList
    (Json.obj [("tool", Json.str "unknown_tool")]) (Json.str "unknown_tool")
    (Json.obj []) (Json.obj []) "boom" rfl rfl rfl rfl

/-! # Claim C8 -/

theorem firstTextLoop_of_find_some {l : List ContentBlock} {b : ContentBlock}
    (h : l.find? isTextBlock = some b) :
    ∃ t, b = .textContent t ∧ firstTextLoop l = some t := by
  induction l with
  | nil => simp [List.find?] at h
  | cons c cs ih =>
    cases c with
    | textContent t =>
      simp [List.find?, isTextBlock] at h
      exact ⟨t, h.symm, rfl⟩
    | otherContent s =>
      simp only [List.find?, isTextBlock] at h
      obtain ⟨t, hb, hf⟩ := ih h
      exact ⟨t, hb, by simpa [firstTextLoop] using hf⟩

theorem firstTextLoop_of_find_none {l : List ContentBlock}
    (h : l.find? isTextBlock = none) : firstTextLoop l = none := by
  induction l with
  | nil => rfl
  | cons c cs ih =>
    cases c with
    | textContent t => simp [List.find?, isTextBlock] at h
    | otherContent s =>
      simp only [List.find?, isTextBlock] at h
      simpa [firstTextLoop] using ih h

/-- Claim C8: tool-result text reduction follows exactly this priority: a
structured payload that is a mapping with a `"result"` field wins and its
textual form is returned; else, for a non-empty content sequence, the text of
the first block recognized as plain text is returned, and if no block is
text, the raw rendering of the whole content sequence; else the raw rendering
of the entire result. -/
theorem c8_result_text_priority (R : Render) (r : CallToolResult) :
    (∀ (kvs : List (String × Json)) (v : Json),
      r.structuredContent = .obj kvs → lookupKey "result" kvs = some v →
      extract_tool_result_text R r = R.jsonStr v) ∧
    (structuredResultField r.structuredContent = none → r.content ≠ [] →
      (∀ b, r.content.find? isTextBlock = some b →
        ∃ t, b = .textContent t ∧ extract_tool_result_text R r = t) ∧
      (r.content.find? isTextBlock = none →
        extract_tool_result_text R r = R.blocksStr r.content)) ∧
    (structuredResultField r.structuredContent = none → r.content = [] →
      extract_tool_result_text R r = R.resultStr r) := by
  refine ⟨?_, ?_, ?_⟩
  · intro kvs v hsc hv
    simp [extract_tool_result_text, structuredResultField, hsc, hv]
  · intro hnone hne
    constructor
    · intro b hb
      obtain ⟨t, hbt, hf⟩ := firstTextLoop_of_find_some hb
      refine ⟨t, hbt, ?_⟩
      cases hc : r.content with
      | nil => exact absurd hc hne
      | cons c cs =>
        rw [hc] at hf
        simp [extract_tool_result_text, hnone, hc, hf]
    · intro hb
      have hf := firstTextLoop_of_find_none hb
      cases hc : r.content with
      | nil => exact absurd hc hne
      | cons c cs =>
        rw [hc] at hf
        simp [extract_tool_result_text, hnone, hc, hf]
  · intro hnone hc
    simp [extract_tool_result_text, hnone, hc]

/-- Witness for claim C8 at a concrete result carrying a structured
`"result"` field. -/
theorem c8_result_text_priority_witness :
    extract_tool_result_text ⟨fun _ => "seven", fun _ => "", fun _ => ""⟩
      ⟨.obj [("result", Json.num 7)], []⟩ = "seven" :=
  (c8_result_text_priority ⟨fun _ => "seven", fun _ => "", fun _ => ""⟩
    ⟨.obj [("result", Json.num 7)], []⟩).1 [("result", Json.num 7)] (Json.num 7) rfl rfl

/-! # Claim C10 -/

theorem keys_dictSet_of_contains {α : Type} {l : List (String × α)} {k : String}
    (v : α) (h : containsKey k l = true) :
    (dictSet k v l).map Prod.fst = l.map Prod.fst := by
  induction l with
  | nil => simp [containsKey, lookupKey] at h
  | cons p rest ih =>
    obtain ⟨k', v'⟩ := p
    by_cases hk : k' = k
    · subst hk
      simp [dictSet]
    · simp only [containsKey, lookupKey, hk, if_false] at h
      simp [dictSet, hk, ih h]

theorem pyReplaceFuel_of_not_contains {old new : List Char} :
    ∀ (fuel : Nat) (s : List Char), containsSub old s = false →
      pyReplaceFuel old new fuel s = s := by
  intro fuel
  induction fuel with
  | zero => intro s _; rfl
  | succ f ih =>
    intro s h
    cases s with
    | nil => rfl
    | cons c cs =>
      simp only [containsSub, Bool.or_eq_false_iff] at h
      simp [pyReplaceFuel, h.1, ih cs h.2]

theorem pyReplace_of_not_contains {s old new : List Char}
    (h : containsSub old s = false) : pyReplace s old new = s := by
  have hne : old ≠ [] := by
    intro he
    subst he
    cases s <;> simp [containsSub, List.isPrefixOf] at h
  unfold pyReplace
  rw [if_neg hne]
  exact pyReplaceFuel_of_not_contains s.length s h

/-- Claim C10: `edit_document` on a present `doc_id` keeps the set of
document ids unchanged, keeps every other document's content, and replaces
the named document's content by its previous content with every occurrence of
`old_str` replaced by `new_str` (so the document is unchanged when `old_str`
does not occur); on an absent `doc_id` it raises and leaves the store
entirely unchanged. -/
theorem c10_edit_document_frame (docs : List (String × String))
    (doc_id old_str new_str : String) :
    (lookupKey doc_id docs = none →
      edit_document docs doc_id old_str new_str
        = (.error ("Doc with id " ++ doc_id ++ " not found"), docs)) ∧
    (∀ content, lookupKey doc_id docs = some content →
      (edit_document docs doc_id old_str new_str).2.map Prod.fst
          = docs.map Prod.fst ∧
      (∀ k, k ≠ doc_id →
        lookupKey k (edit_document docs doc_id old_str new_str).2
          = lookupKey k docs) ∧
      lookupKey doc_id (edit_document docs doc_id old_str new_str).2
        = some (pyReplaceS content old_str new_str) ∧
      (containsSub old_str.toList content.toList = false →
        pyReplaceS content old_str new_str = content)) := by
  constructor
  · intro h
    simp [edit_document, h]
  · intro content h
    refine ⟨?_, ?_, ?_, ?_⟩
    · simp only [edit_document, h]
      exact keys_dictSet_of_contains _ (by simp [containsKey, h])
    · intro k hk
      simp only [edit_document, h]
      exact lookupKey_dictSet_ne hk _ docs
    · simp only [edit_document, h]
      exact lookupKey_dictSet_self _ _ docs
    · intro hno
      unfold pyReplaceS
      rw [pyReplace_of_not_contains hno]
      obtain ⟨l⟩ := content
      rfl

/-- Witness for claim C10 on the server's initial store. -/
theorem c10_edit_document_witness :
    lookupKey "plan.md" (edit_document docsInit "plan.md" "plan" "scheme").2
      = some (pyReplaceS "The plan outlines the steps for the project's implementation."
          "plan" "scheme") :=
  ((c10_edit_document_frame docsInit "plan.md" "plan" "scheme").2
    "The plan outlines the steps for the project's implementation." rfl).2.2.1

/-! # Claim C9 -/

theorem isPrefixOf_append_self : ∀ (p t : List Char), p.isPrefixOf (p ++ t) = true := by
  intro p
  induction p with
  | nil => intro t; simp [List.isPrefixOf]
  | cons c cs ih => intro t; simp [List.isPrefixOf, ih]

theorem cons_not_prefixOf {x c : Char} {p l : List Char} (h : c ≠ x) :
    (x :: p).isPrefixOf (c :: l) = false := by
  cases hq : (x :: p).isPrefixOf (c :: l) with
  | false => rfl
  | true =>
    simp only [List.isPrefixOf, Bool.and_eq_true, beq_iff_eq] at hq
    exact absurd hq.1.symm h

theorem afterFirst_length {pat : List Char} :
    ∀ {s r : List Char}, afterFirst pat s = some r → r.length ≤ s.length := by
  intro s
  induction s with
  | nil =>
    intro r h
    simp only [afterFirst] at h
    split at h
    · cases h; simp
    · cases h
  | cons c cs ih =>
    intro r h
    simp only [afterFirst] at h
    split at h
    · cases h
      simp [List.length_drop]
    · exact le_trans (ih h) (by simp)

theorem stripThinkFuel_congr :
    ∀ (f1 : Nat) (s : List Char) (f2 : Nat), s.length ≤ f1 → s.length ≤ f2 →
      stripThinkFuel f1 s = stripThinkFuel f2 s := by
  intro f1
  induction f1 with
  | zero =>
    intro s f2 h1 _
    have hs : s = [] := List.eq_nil_of_length_eq_zero (Nat.le_zero.mp h1)
    subst hs
    cases f2 <;> rfl
  | succ f ihf =>
    intro s f2 h1 h2
    cases s with
    | nil => cases f2 <;> rfl
    | cons c cs =>
      cases f2 with
      | zero => exact absurd h2 (by simp)
      | succ g =>
        simp only [stripThinkFuel]
        have hcs1 : cs.length ≤ f := Nat.le_of_succ_le_succ h1
        have hcs2 : cs.length ≤ g := Nat.le_of_succ_le_succ h2
        by_cases hp : thinkOpen.isPrefixOf (c :: cs) = true
        · rw [if_pos hp, if_pos hp]
          cases ha : afterFirst thinkClose ((c :: cs).drop thinkOpen.length) with
          | some rest =>
            have hr : rest.length ≤ cs.length := by
              have hl := afterFirst_length ha
              have h7 : thinkOpen.length = 7 := rfl
              simp only [List.length_drop, h7, List.length_cons] at hl
              omega
            exact ihf rest g (le_trans hr hcs1) (le_trans hr hcs2)
          | none =>
            rw [ihf cs g hcs1 hcs2]
        · rw [if_neg hp, if_neg hp, ihf cs g hcs1 hcs2]

theorem stripThink_cons_no {c : Char} {cs : List Char}
    (h : thinkOpen.isPrefixOf (c :: cs) = false) :
    stripThink (c :: cs) = c :: stripThink cs := by
  simp [stripThink, stripThinkFuel, h]

theorem stripThink_cons_noclose {c : Char} {cs : List Char}
    (h : thinkOpen.isPrefixOf (c :: cs) = true)
    (ha : afterFirst thinkClose ((c :: cs).drop thinkOpen.length) = none) :
    stripThink (c :: cs) = c :: stripThink cs := by
  simp [stripThink, stripThinkFuel, h, ha]

theorem stripThink_jump {c : Char} {cs rest : List Char}
    (h : thinkOpen.isPrefixOf (c :: cs) = true)
    (ha : afterFirst thinkClose ((c :: cs).drop thinkOpen.length) = some rest) :
    stripThink (c :: cs) = stripThink rest := by
  have hr : rest.length ≤ cs.length := by
    have hl := afterFirst_length ha
    have h7 : thinkOpen.length = 7 := rfl
    simp only [List.length_drop, h7, List.length_cons] at hl
    omega
  simp only [stripThink, stripThinkFuel, List.length_cons, h, if_pos, ha]
  exact stripThinkFuel_congr cs.length rest rest.length hr (le_refl _)

theorem stripThink_append_plain {a : List Char} (s : List Char) (h : '[' ∉ a) :
    stripThink (a ++ s) = a ++ stripThink s := by
  induction a with
  | nil => rfl
  | cons c a' ih =>
    simp only [List.mem_cons, not_or] at h
    have hp : thinkOpen.isPrefixOf (c :: (a' ++ s)) = false :=
      cons_not_prefixOf (fun he => h.1 he.symm)
    rw [List.cons_append, stripThink_cons_no hp, ih h.2]
    simp

theorem afterFirst_through {b : List Char} (w : List Char) (h : '[' ∉ b) :
    afterFirst thinkClose (b ++ (thinkClose ++ w)) = some w := by
  induction b with
  | nil =>
    simp only [List.nil_append]
    simp [afterFirst, thinkClose, List.isPrefixOf]
  | cons c b' ih =>
    simp only [List.mem_cons, not_or] at h
    have hp : thinkClose.isPrefixOf (c :: (b' ++ (thinkClose ++ w))) = false :=
      cons_not_prefixOf (fun he => h.1 he.symm)
    rw [List.cons_append]
    simp only [afterFirst, hp, Bool.false_eq_true, if_false]
    exact ih h.2

theorem stripThink_block {b : List Char} (w : List Char) (h : '[' ∉ b) :
    stripThink (thinkOpen ++ (b ++ (thinkClose ++ w))) = stripThink w := by
  have hp : thinkOpen.isPrefixOf (thinkOpen ++ (b ++ (thinkClose ++ w))) = true :=
    isPrefixOf_append_self _ _
  have hdrop : (thinkOpen ++ (b ++ (thinkClose ++ w))).drop thinkOpen.length
      = b ++ (thinkClose ++ w) := by
    simp [thinkOpen]
  have ha : afterFirst thinkClose
      ((thinkOpen ++ (b ++ (thinkClose ++ w))).drop thinkOpen.length) = some w := by
    rw [hdrop]
    exact afterFirst_through w h
  cases he : thinkOpen ++ (b ++ (thinkClose ++ w)) with
  | nil => exact absurd he (by simp [thinkOpen])
  | cons c cs =>
    rw [he] at hp ha
    exact stripThink_jump hp ha

theorem stripThink_id_of_no_open {s : List Char} (h : '[' ∉ s) :
    stripThink s = s := by
  have h0 : stripThink ([] : List Char) = [] := rfl
  have hap := stripThink_append_plain (a := s) [] h
  rw [List.append_nil, h0, List.append_nil] at hap
  exact hap

theorem stripThink_id_of_not_containsSub {s : List Char}
    (h : containsSub thinkOpen s = false) : stripThink s = s := by
  induction s with
  | nil => rfl
  | cons c cs ih =>
    simp only [containsSub, Bool.or_eq_false_iff] at h
    rw [stripThink_cons_no h.1, ih h.2]

theorem stripThink_withThinkBlocks :
    ∀ (segs : List (List Char × List Char)) (tail : List Char),
      (∀ p ∈ segs, '[' ∉ p.1 ∧ '[' ∉ p.2) → '[' ∉ tail →
      stripThink (withThinkBlocks segs tail) = visibleParts segs tail := by
  intro segs
  induction segs with
  | nil =>
    intro tail _ htail
    exact stripThink_id_of_no_open htail
  | cons p rest ih =>
    intro tail hsegs htail
    obtain ⟨a, b⟩ := p
    have hp := hsegs (a, b) (List.mem_cons_self _ _)
    have hrest : ∀ q ∈ rest, '[' ∉ q.1 ∧ '[' ∉ q.2 :=
      fun q hq => hsegs q (List.mem_cons_of_mem _ hq)
    simp only [withThinkBlocks, visibleParts, List.append_assoc]
    rw [stripThink_append_plain _ hp.1, stripThink_block _ hp.2, ih tail hrest htail]

/-- Claim C9: extracting text removes every substring delimited by a matched
`[THINK]`...`[/THINK]` pair (non-greedy, blocks may span lines, all blocks in
one reply are removed) and then strips surrounding whitespace; text outside
matched marker pairs is preserved, and a reply with no reasoning-start marker
at all is returned whole (stripped). -/
theorem c9_think_blocks_removed :
    (∀ (segs : List (List Char × List Char)) (tail : List Char),
      (∀ p ∈ segs, '[' ∉ p.1 ∧ '[' ∉ p.2) → '[' ∉ tail →
      strip_thinking (withThinkBlocks segs tail) = pyStrip (visibleParts segs tail)) ∧
    (∀ s : List Char, containsSub thinkOpen s = false → strip_thinking s = pyStrip s) := by
  constructor
  · intro segs tail hs ht
    unfold strip_thinking
    rw [stripThink_withThinkBlocks segs tail hs ht]
  · intro s h
    unfold strip_thinking
    rw [stripThink_id_of_not_containsSub h]

/-- Witness for claim C9 at a concrete multi-line reply with two blocks. -/
theorem c9_think_blocks_removed_witness :
    strip_thinking (withThinkBlocks
      [("Hola ".toList, " oculto\nrazonamiento ".toList), ("mundo ".toList, "x".toList)]
      " fin ".toList)
      = pyStrip (visibleParts
        [("Hola ".toList, " oculto\nrazonamiento ".toList), ("mundo ".toList, "x".toList)]
        " fin ".toList) :=
  c9_think_blocks_removed.1
    [("Hola ".toList, " oculto\nrazonamiento ".toList), ("mundo ".toList, "x".toList)]
    " fin ".toList (by decide) (by decide)

/-! # Claim C2: lemmas about the fence regex search -/

theorem tryAt_none_of_prefix_false {op s : List Char}
    (h : op.isPrefixOf s = false) : tryAt op s = none := by
  simp [tryAt, h]

theorem cons_not_prefixOf_head {x : Char} {p K : List Char}
    (hK : ∀ c, K.head? = some c → c ≠ x) : (x :: p).isPrefixOf K = false := by
  cases K with
  | nil => rfl
  | cons c l => exact cons_not_prefixOf (fun he => (hK c rfl) he)

theorem pyWs_ne_tick {c : Char} (h : pyWs c = true) : c ≠ '`' := by
  intro he
  subst he
  exact absurd h (by decide)

theorem pyWs_ne_j {c : Char} (h : pyWs c = true) : c ≠ 'j' := by
  intro he
  subst he
  exact absurd h (by decide)

theorem isPrefixOf_of_append_left {p q : List Char} :
    ∀ {l : List Char}, (p ++ q).isPrefixOf l = true → p.isPrefixOf l = true := by
  induction p with
  | nil => intro l _; simp [List.isPrefixOf]
  | cons a p' ih =>
    intro l h
    cases l with
    | nil => simp [List.isPrefixOf] at h
    | cons c cs =>
      simp only [List.cons_append, List.isPrefixOf, Bool.and_eq_true] at h ⊢
      exact ⟨h.1, ih h.2⟩

theorem isPrefixOf_append_extend {p : List Char} :
    ∀ {a : List Char} (w : List Char), p.isPrefixOf a = true →
      p.isPrefixOf (a ++ w) = true := by
  induction p with
  | nil => intro a w _; simp [List.isPrefixOf]
  | cons x p' ih =>
    intro a w h
    cases a with
    | nil => simp [List.isPrefixOf] at h
    | cons c cs =>
      simp only [List.isPrefixOf, Bool.and_eq_true, List.cons_append] at h ⊢
      exact ⟨h.1, ih w h.2⟩

theorem containsSub_mono {p q : List Char} :
    ∀ {l : List Char}, containsSub (p ++ q) l = true → containsSub p l = true := by
  intro l
  induction l with
  | nil =>
    intro h
    simp only [containsSub] at h ⊢
    exact isPrefixOf_of_append_left h
  | cons c cs ih =>
    intro h
    simp only [containsSub, Bool.or_eq_true] at h ⊢
    rcases h with h | h
    · exact Or.inl (isPrefixOf_of_append_left h)
    · exact Or.inr (ih h)

theorem searchFence_none_of_not_containsSub {c0 : Char} {op' s : List Char}
    (h : containsSub (c0 :: op') s = false) : searchFence (c0 :: op') s = none := by
  induction s with
  | nil => rfl
  | cons c cs ih =>
    simp only [containsSub, Bool.or_eq_false_iff] at h
    simp only [searchFence, tryAt_none_of_prefix_false h.1]
    exact ih h.2

theorem searchFence_append_skip {op : List Char} :
    ∀ (a s : List Char), (∀ t, t <:+ a → t ≠ [] → tryAt op (t ++ s) = none) →
      searchFence op (a ++ s) = searchFence op s := by
  intro a
  induction a with
  | nil => intro s _; simp
  | cons c a' ih =>
    intro s h
    have h0 : tryAt op (c :: (a' ++ s)) = none := by
      have := h (c :: a') (List.suffix_refl _) (by simp)
      simpa using this
    have h0' : tryAt op (c :: List.append a' s) = none := h0
    simp only [List.cons_append, searchFence, h0, h0']
    exact ih s (fun t ht hne => h t (ht.trans (List.suffix_cons c a')) hne)

theorem searchFence_eq_none {op : List Char} :
    ∀ (s : List Char), (∀ t, t <:+ s → tryAt op t = none) → searchFence op s = none := by
  intro s
  induction s with
  | nil =>
    intro h
    simpa [searchFence] using h [] (List.suffix_refl _)
  | cons c cs ih =>
    intro h
    simp only [searchFence, h (c :: cs) (List.suffix_refl _)]
    exact ih (fun t ht => h t (ht.trans (List.suffix_cons c cs)))

theorem suffix_append_cases {t x y : List Char} (h : t <:+ x ++ y) :
    t <:+ y ∨ ∃ u, u <:+ x ∧ u ≠ [] ∧ t = u ++ y := by
  induction x with
  | nil => exact Or.inl (by simpa using h)
  | cons c x' ih =>
    rcases List.suffix_cons_iff.mp (by simpa using h) with h' | h'
    · exact Or.inr ⟨c :: x', List.suffix_refl _, by simp, by simpa using h'⟩
    · rcases ih h' with h'' | ⟨u, hu, hne, rfl⟩
      · exact Or.inl h''
      · exact Or.inr ⟨u, hu.trans (List.suffix_cons c x'), hne, rfl⟩

theorem noTick_suffix_tryAt (op : List Char) {seg : List Char} (rest : List Char)
    (hop : op.head? = some '`') (hseg : '`' ∉ seg) :
    ∀ t, t <:+ seg → t ≠ [] → tryAt op (t ++ rest) = none := by
  intro t ht hne
  cases t with
  | nil => exact absurd rfl hne
  | cons c tl =>
    have hc : c ∈ seg := ht.subset (by simp)
    cases op with
    | nil => cases hop
    | cons x op' =>
      have hx : x = '`' := Option.some.inj hop
      refine tryAt_none_of_prefix_false (cons_not_prefixOf ?_)
      intro he
      exact hseg ((he.trans hx) ▸ hc)

theorem dropWhile_append_stop {p : Char → Bool} :
    ∀ (a b : List Char), (∀ x, b.head? = some x → p x = false) →
      (a ++ b).dropWhile p = a.dropWhile p ++ b := by
  intro a
  induction a with
  | nil =>
    intro b hb
    cases b with
    | nil => simp
    | cons x l => simp [List.dropWhile_cons, hb x rfl]
  | cons c a' ih =>
    intro b hb
    simp only [List.cons_append, List.dropWhile_cons]
    cases hc : p c with
    | true => simp [ih b hb]
    | false => simp

theorem dropWhile_allWs {ws : List Char} (h : allWs ws) :
    ∀ (x : List Char), (ws ++ x).dropWhile pyWs = x.dropWhile pyWs := by
  induction ws with
  | nil => intro x; simp
  | cons c cs ih =>
    intro x
    have hc : pyWs c = true := h c (by simp)
    have h' : allWs cs := fun d hd => h d (by simp [hd])
    simp [List.dropWhile_cons, hc, ih h' x]

theorem wsThenFence_ws_ticks {ws2 : List Char} (h : allWs ws2) :
    ∀ (post : List Char), wsThenFence (ws2 ++ (ticks ++ post)) = true := by
  induction ws2 with
  | nil =>
    intro post
    have hp := isPrefixOf_append_self ticks post
    cases he : ticks ++ post with
    | nil => exact absurd he (by simp [ticks])
    | cons c cs =>
      rw [he] at hp
      simp [wsThenFence, hp]
  | cons c cs ih =>
    intro post
    have hc : pyWs c = true := h c (by simp)
    have h' : allWs cs := fun d hd => h d (by simp [hd])
    simp [wsThenFence, hc, ih h' post]

theorem tick_mem_of_wsThenFence : ∀ {l : List Char}, wsThenFence l = true → '`' ∈ l := by
  intro l
  induction l with
  | nil => intro h; simp [wsThenFence] at h
  | cons c cs ih =>
    intro h
    simp only [wsThenFence, Bool.or_eq_true, Bool.and_eq_true] at h
    rcases h with h | ⟨_, h⟩
    · have : c = '`' := by
        cases c' : ticks.isPrefixOf (c :: cs) with
        | false => rw [c'] at h; cases h
        | true =>
          simp only [ticks, List.isPrefixOf, Bool.and_eq_true, beq_iff_eq] at c'
          exact c'.1.symm
      simp [this]
    · simp [ih h]

theorem lastClose_none_of_noTick : ∀ {l : List Char}, '`' ∉ l → lastClose l = none := by
  intro l
  induction l with
  | nil => intro _; rfl
  | cons c cs ih =>
    intro h
    simp only [List.mem_cons, not_or] at h
    simp only [lastClose, ih h.2]
    split
    · rename_i hcond
      exact absurd (tick_mem_of_wsThenFence hcond.2) h.2
    · rfl

theorem pyWs_ne_brace {c : Char} (h : pyWs c = true) : c ≠ '}' := by
  intro he
  subst he
  exact absurd h (by decide)

theorem lastClose_cons_of_ne {c : Char} {cs : List Char} (hc : c ≠ '}')
    (h : lastClose cs = none) : lastClose (c :: cs) = none := by
  simp only [lastClose, h]
  rw [if_neg]
  intro hcond
  exact hc hcond.1

theorem lastClose_ws_ticks_post {ws2 post : List Char} (hws : allWs ws2)
    (hpost : '`' ∉ post) : lastClose (ws2 ++ (ticks ++ post)) = none := by
  induction ws2 with
  | nil =>
    have h3 : lastClose post = none := lastClose_none_of_noTick hpost
    have h2 := lastClose_cons_of_ne (c := '`') (by decide) h3
    have h1 := lastClose_cons_of_ne (c := '`') (by decide) h2
    have h0 := lastClose_cons_of_ne (c := '`') (by decide) h1
    simpa [ticks] using h0
  | cons c cs ih =>
    have hc : pyWs c = true := hws c (by simp)
    have h' : allWs cs := fun d hd => hws d (by simp [hd])
    have := lastClose_cons_of_ne (pyWs_ne_brace hc) (ih h')
    simpa using this

theorem lastClose_append_some {y : List Char} {n : Nat} (h : lastClose y = some n) :
    ∀ (x : List Char), lastClose (x ++ y) = some (x.length + n) := by
  intro x
  induction x with
  | nil => simpa using h
  | cons c x' ih =>
    show lastClose (c :: (x' ++ y)) = _
    simp only [lastClose]
    rw [ih]
    simp [Nat.succ_add]

theorem lastClose_body {bMid ws2 post : List Char} (hws : allWs ws2)
    (hpost : '`' ∉ post) :
    lastClose ((bMid ++ ['}']) ++ (ws2 ++ (ticks ++ post))) = some bMid.length := by
  have h0 : lastClose ('}' :: (ws2 ++ (ticks ++ post))) = some 0 := by
    simp only [lastClose, lastClose_ws_ticks_post hws hpost]
    simp [wsThenFence_ws_ticks hws post]
  have := lastClose_append_some h0 bMid
  simpa using this

theorem tryAt_block {op ws1 bMid ws2 post : List Char}
    (hws1 : allWs ws1) (hws2 : allWs ws2) (hpost : '`' ∉ post) :
    tryAt op (op ++ (ws1 ++ (('{' :: (bMid ++ ['}'])) ++ (ws2 ++ (ticks ++ post)))))
      = some ('{' :: (bMid ++ ['}'])) := by
  have hpre := isPrefixOf_append_self op
    (ws1 ++ (('{' :: (bMid ++ ['}'])) ++ (ws2 ++ (ticks ++ post))))
  have hbrace : pyWs '{' = false := rfl
  simp only [tryAt, hpre, if_true, List.drop_left, dropWhile_allWs hws1,
    List.cons_append, List.dropWhile_cons, hbrace, Bool.false_eq_true, if_false]
  rw [lastClose_body hws2 hpost]
  have htake : ((bMid ++ ['}']) ++ (ws2 ++ (ticks ++ post))).take (bMid.length + 1)
      = bMid ++ ['}'] := by
    have hlen : (bMid ++ ['}']).length = bMid.length + 1 := by simp
    rw [← hlen, List.take_left]
  simp only [List.append_assoc, List.singleton_append] at htake
  simp [isPrefixOf_append_self, htake]

theorem searchFence_cons_some {op : List Char} {c : Char} {cs g : List Char}
    (h : tryAt op (c :: cs) = some g) : searchFence op (c :: cs) = some g := by
  simp [searchFence, h]

theorem pyStrip_brace (bMid : List Char) :
    pyStrip ('{' :: (bMid ++ ['}'])) = '{' :: (bMid ++ ['}']) := by
  have h1 : pyWs '{' = false := rfl
  have h2 : pyWs '}' = false := rfl
  have hs1 : ('{' :: (bMid ++ ['}'])).dropWhile pyWs = '{' :: (bMid ++ ['}']) := by
    simp [List.dropWhile_cons, h1]
  have hs2 : ('{' :: (bMid ++ ['}'])).reverse
      = '}' :: (bMid.reverse ++ ['{']) := by
    simp
  unfold pyStrip
  rw [hs1, hs2]
  simp [List.dropWhile_cons, h2]

theorem pyStrip_concat {pre M post : List Char} {m0 mL : Char}
    (hh : M.head? = some m0) (hm0 : pyWs m0 = false)
    (hl : M.getLast? = some mL) (hmL : pyWs mL = false) :
    pyStrip (pre ++ (M ++ post))
      = pre.dropWhile pyWs ++ (M ++ (post.reverse.dropWhile pyWs).reverse) := by
  have hMne : M ≠ [] := by
    intro he
    rw [he] at hh
    cases hh
  have hstep1 : (pre ++ (M ++ post)).dropWhile pyWs
      = pre.dropWhile pyWs ++ (M ++ post) := by
    apply dropWhile_append_stop
    intro x hx
    cases M with
    | nil => exact absurd rfl hMne
    | cons c tl =>
      have hc : c = m0 := Option.some.inj hh
      have hx' : x = c := by
        simp only [List.cons_append, List.head?_cons] at hx
        exact (Option.some.inj hx).symm
      rw [hx', hc]
      exact hm0
  obtain ⟨d, D, hrev, hd⟩ : ∃ d D, M.reverse = d :: D ∧ d = mL := by
    cases hr : M.reverse with
    | nil => exact absurd (List.reverse_eq_nil_iff.mp hr) hMne
    | cons d D =>
      refine ⟨d, D, rfl, ?_⟩
      have hhr := List.head?_reverse M
      rw [hr, hl] at hhr
      exact Option.some.inj hhr
  subst hd
  have hstep3 : (post.reverse ++ (M.reverse ++ (pre.dropWhile pyWs).reverse)).dropWhile pyWs
      = post.reverse.dropWhile pyWs ++ (M.reverse ++ (pre.dropWhile pyWs).reverse) := by
    apply dropWhile_append_stop
    intro x hx
    rw [hrev] at hx
    simp only [List.cons_append, List.head?_cons] at hx
    rw [(Option.some.inj hx).symm]
    exact hmL
  unfold pyStrip
  rw [hstep1]
  have hrw : (pre.dropWhile pyWs ++ (M ++ post)).reverse
      = post.reverse ++ (M.reverse ++ (pre.dropWhile pyWs).reverse) := by
    simp [List.reverse_append]
  rw [hrw, hstep3]
  simp [List.reverse_append]

theorem jsonOpen_prefix_ticks (K : List Char) :
    jsonOpen.isPrefixOf (ticks ++ K) = (['j', 's', 'o', 'n'] : List Char).isPrefixOf K := by
  simp [jsonOpen, ticks, List.isPrefixOf]

theorem jsonOpen_prefix_two {K : List Char} (hK : ∀ c, K.head? = some c → c ≠ '`') :
    jsonOpen.isPrefixOf ('`' :: ('`' :: K)) = false := by
  have h := cons_not_prefixOf_head (x := '`') (p := (['j', 's', 'o', 'n'] : List Char)) hK
  simp [jsonOpen, List.isPrefixOf, h]

theorem jsonOpen_prefix_one {K : List Char} (hK : ∀ c, K.head? = some c → c ≠ '`') :
    jsonOpen.isPrefixOf ('`' :: K) = false := by
  have h := cons_not_prefixOf_head (x := '`')
    (p := (['`', 'j', 's', 'o', 'n'] : List Char)) hK
  simp [jsonOpen, List.isPrefixOf, h]

theorem json_tag_not_prefix {ws1 : List Char} (hws1 : allWs ws1) (rest : List Char) :
    (['j', 's', 'o', 'n'] : List Char).isPrefixOf (ws1 ++ ('{' :: rest)) = false := by
  cases ws1 with
  | nil => exact cons_not_prefixOf (by decide)
  | cons w ws' =>
    have hw : pyWs w = true := hws1 w (by simp)
    exact cons_not_prefixOf (fun he => pyWs_ne_j hw he)

theorem head_ne_tick_wsBrace {ws1 : List Char} (hws1 : allWs ws1) (rest : List Char) :
    ∀ x, (ws1 ++ ('{' :: rest)).head? = some x → x ≠ '`' := by
  intro x hx
  cases ws1 with
  | nil =>
    simp only [List.nil_append, List.head?_cons] at hx
    rw [← Option.some.inj hx]
    decide
  | cons w ws' =>
    simp only [List.cons_append, List.head?_cons] at hx
    rw [← Option.some.inj hx]
    exact pyWs_ne_tick (hws1 w (by simp))

theorem noTick_of_allWs {ws : List Char} (h : allWs ws) : '`' ∉ ws := by
  intro hm
  exact pyWs_ne_tick (h '`' hm) rfl

theorem noTick_brace_body {bMid : List Char} (h : '`' ∉ bMid) :
    '`' ∉ ('{' :: (bMid ++ ['}'])) := by
  simp only [List.mem_cons, List.mem_append, List.mem_singleton, not_or]
  exact ⟨by decide, h, by decide⟩

theorem ticks_suffix_cases {t : List Char} (h : t <:+ ticks) (hne : t ≠ []) :
    t = ticks ∨ t = ['`', '`'] ∨ t = ['`'] := by
  rcases List.suffix_cons_iff.mp h with h1 | h1
  · exact Or.inl h1
  rcases List.suffix_cons_iff.mp h1 with h2 | h2
  · exact Or.inr (Or.inl h2)
  rcases List.suffix_cons_iff.mp h2 with h3 | h3
  · exact Or.inr (Or.inr h3)
  · exact absurd (List.suffix_nil.mp h3) hne

theorem block_skip {ws1 bMid ws2 K : List Char}
    (hws1 : allWs ws1) (hws2 : allWs ws2) (hbMid : '`' ∉ bMid)
    (hK1 : (['j', 's', 'o', 'n'] : List Char).isPrefixOf K = false)
    (hK2 : ∀ x, K.head? = some x → x ≠ '`') :
    ∀ t, t <:+ (ticks ++ (ws1 ++ (('{' :: (bMid ++ ['}'])) ++ (ws2 ++ ticks)))) →
      t ≠ [] → tryAt jsonOpen (t ++ K) = none := by
  intro t ht hne
  rcases suffix_append_cases ht with ht1 | ⟨u, hu, hune, rfl⟩
  case inr.intro =>
    -- t = u ++ rest with u a nonempty suffix of the opening fence
    rcases ticks_suffix_cases hu hune with rfl | rfl | rfl
    · -- u = the full opening fence
      apply tryAt_none_of_prefix_false
      rw [List.append_assoc, jsonOpen_prefix_ticks]
      have := json_tag_not_prefix hws1
        ((bMid ++ ['}']) ++ ((ws2 ++ ticks) ++ K))
      simpa [List.append_assoc] using this
    · apply tryAt_none_of_prefix_false
      have hhead := head_ne_tick_wsBrace hws1
        ((bMid ++ ['}']) ++ ((ws2 ++ ticks) ++ K))
      have := jsonOpen_prefix_two (K := ws1 ++ ('{' ::
        ((bMid ++ ['}']) ++ ((ws2 ++ ticks) ++ K)))) hhead
      simpa [List.append_assoc] using this
    · apply tryAt_none_of_prefix_false
      have hhead := head_ne_tick_wsBrace hws1
        ((bMid ++ ['}']) ++ ((ws2 ++ ticks) ++ K))
      have := jsonOpen_prefix_one (K := ws1 ++ ('{' ::
        ((bMid ++ ['}']) ++ ((ws2 ++ ticks) ++ K)))) hhead
      simpa [List.append_assoc] using this
  case inl =>
    rcases suffix_append_cases ht1 with ht2 | ⟨u, hu, hune2, rfl⟩
    case inr.intro =>
      -- nonempty suffix of ws1
      have := noTick_suffix_tryAt jsonOpen
        ((('{' :: (bMid ++ ['}'])) ++ (ws2 ++ ticks)) ++ K) rfl
        (noTick_of_allWs hws1) u hu hune2
      simpa [List.append_assoc] using this
    case inl =>
      rcases suffix_append_cases ht2 with ht3 | ⟨u, hu, hune3, rfl⟩
      case inr.intro =>
        -- nonempty suffix of the brace-delimited body
        have := noTick_suffix_tryAt jsonOpen
          ((ws2 ++ ticks) ++ K) rfl (noTick_brace_body hbMid) u hu hune3
        simpa [List.append_assoc] using this
      case inl =>
        rcases suffix_append_cases ht3 with ht4 | ⟨u, hu, hune4, rfl⟩
        case inr.intro =>
          -- nonempty suffix of ws2
          have := noTick_suffix_tryAt jsonOpen
            (ticks ++ K) rfl (noTick_of_allWs hws2) u hu hune4
          simpa [List.append_assoc] using this
        case inl =>
          -- nonempty suffix of the closing fence
          rcases ticks_suffix_cases ht4 hne with rfl | rfl | rfl
          · apply tryAt_none_of_prefix_false
            rw [jsonOpen_prefix_ticks]
            exact hK1
          · exact tryAt_none_of_prefix_false (jsonOpen_prefix_two hK2)
          · exact tryAt_none_of_prefix_false (jsonOpen_prefix_one hK2)

theorem mem_of_mem_dropWhileL {c : Char} {l : List Char}
    (h : c ∈ l.dropWhile pyWs) : c ∈ l :=
  (List.dropWhile_suffix pyWs).subset h

theorem mem_of_mem_stripEnd {c : Char} {l : List Char}
    (h : c ∈ (l.reverse.dropWhile pyWs).reverse) : c ∈ l := by
  rw [List.mem_reverse] at h
  exact List.mem_reverse.mp (mem_of_mem_dropWhileL h)

theorem stripEnd_decomp (l : List Char) :
    ∃ w, l = (l.reverse.dropWhile pyWs).reverse ++ w := by
  refine ⟨(l.reverse.takeWhile pyWs).reverse, ?_⟩
  conv_lhs => rw [← List.reverse_reverse l,
    ← List.takeWhile_append_dropWhile pyWs l.reverse]
  rw [List.reverse_append]

theorem json_prefix_stripEnd_false {post : List Char}
    (h : (['j', 's', 'o', 'n'] : List Char).isPrefixOf post = false) :
    (['j', 's', 'o', 'n'] : List Char).isPrefixOf
      (post.reverse.dropWhile pyWs).reverse = false := by
  cases hc : (['j', 's', 'o', 'n'] : List Char).isPrefixOf
      (post.reverse.dropWhile pyWs).reverse with
  | false => rfl
  | true =>
    obtain ⟨w, hw⟩ := stripEnd_decomp post
    have hext := isPrefixOf_append_extend w hc
    rw [← hw] at hext
    rw [hext] at h
    cases h

theorem head_ne_tick_of_not_mem {l : List Char} (h : '`' ∉ l) :
    ∀ x, l.head? = some x → x ≠ '`' := by
  intro x hx he
  cases l with
  | nil => cases hx
  | cons c cs =>
    have : x = c := Option.some.inj hx |>.symm
    subst this
    subst he
    exact h (by simp)

theorem tryAt_jsonOpen_nil : tryAt jsonOpen [] = none := by
  simp [tryAt, jsonOpen, List.isPrefixOf]

theorem extraction_no_fence {s : List Char}
    (h : containsSub ticks (pyStrip s) = false) :
    extract_json_from_text s = pyStrip s := by
  have hjson : containsSub jsonOpen (pyStrip s) = false := by
    cases hc : containsSub jsonOpen (pyStrip s) with
    | false => rfl
    | true =>
      have hm : containsSub ticks (pyStrip s) = true :=
        containsSub_mono (p := ticks) (q := ['j', 's', 'o', 'n']) hc
      rw [hm] at h
      cases h
  have h1 : searchFence jsonOpen (pyStrip s) = none :=
    searchFence_none_of_not_containsSub hjson
  have h2 : searchFence ticks (pyStrip s) = none :=
    searchFence_none_of_not_containsSub h
  simp [extract_json_from_text, h1, h2]

theorem getLast_tick (Z : List Char) : (Z ++ ticks).getLast? = some '`' := by
  rw [List.getLast?_append_of_ne_nil Z (by simp [ticks])]
  rfl

theorem strip_shape (pre M post : List Char)
    (hh : M.head? = some '`') (hl : M.getLast? = some '`') :
    pyStrip (pre ++ (M ++ post))
      = pre.dropWhile pyWs ++ (M ++ (post.reverse.dropWhile pyWs).reverse) :=
  pyStrip_concat hh rfl hl rfl

theorem extraction_tagged {pre ws1 bMid ws2 post : List Char}
    (hpre : '`' ∉ pre) (hws1 : allWs ws1) (hws2 : allWs ws2) (hpost : '`' ∉ post) :
    extract_json_from_text
      (pre ++ ((jsonOpen ++ (ws1 ++ (('{' :: (bMid ++ ['}'])) ++ (ws2 ++ ticks)))) ++ post))
      = '{' :: (bMid ++ ['}']) := by
  have hpre'tick : '`' ∉ pre.dropWhile pyWs := fun hm => hpre (mem_of_mem_dropWhileL hm)
  have hpost'tick : '`' ∉ (post.reverse.dropWhile pyWs).reverse :=
    fun hm => hpost (mem_of_mem_stripEnd hm)
  have hM : (jsonOpen ++ (ws1 ++ (('{' :: (bMid ++ ['}'])) ++ (ws2 ++ ticks)))).getLast?
      = some '`' := by
    have he : jsonOpen ++ (ws1 ++ (('{' :: (bMid ++ ['}'])) ++ (ws2 ++ ticks)))
        = (jsonOpen ++ (ws1 ++ (('{' :: (bMid ++ ['}'])) ++ ws2))) ++ ticks := by
      simp [List.append_assoc]
    rw [he]
    exact getLast_tick _
  have hstrip := strip_shape pre
    (jsonOpen ++ (ws1 ++ (('{' :: (bMid ++ ['}'])) ++ (ws2 ++ ticks)))) post rfl hM
  have hblock : tryAt jsonOpen (jsonOpen ++ (ws1 ++ (('{' :: (bMid ++ ['}'])) ++
      (ws2 ++ (ticks ++ (post.reverse.dropWhile pyWs).reverse)))))
      = some ('{' :: (bMid ++ ['}'])) := tryAt_block hws1 hws2 hpost'tick
  have hsf : searchFence jsonOpen (pre.dropWhile pyWs ++ (jsonOpen ++ (ws1 ++
      (('{' :: (bMid ++ ['}'])) ++ (ws2 ++ (ticks ++ (post.reverse.dropWhile pyWs).reverse))))))
      = some ('{' :: (bMid ++ ['}'])) := by
    rw [searchFence_append_skip (pre.dropWhile pyWs) _
      (noTick_suffix_tryAt jsonOpen _ rfl hpre'tick)]
    exact searchFence_cons_some hblock
  unfold extract_json_from_text
  rw [hstrip]
  simp only [List.append_assoc, List.cons_append, List.singleton_append] at hsf ⊢
  rw [hsf]
  simp [pyStrip_brace]

theorem extraction_untagged {pre ws1 bMid ws2 post : List Char}
    (hpre : '`' ∉ pre) (hws1 : allWs ws1) (hws2 : allWs ws2) (hbMid : '`' ∉ bMid)
    (hpost : '`' ∉ post)
    (hpj : (['j', 's', 'o', 'n'] : List Char).isPrefixOf post = false) :
    extract_json_from_text
      (pre ++ ((ticks ++ (ws1 ++ (('{' :: (bMid ++ ['}'])) ++ (ws2 ++ ticks)))) ++ post))
      = '{' :: (bMid ++ ['}']) := by
  have hpre'tick : '`' ∉ pre.dropWhile pyWs := fun hm => hpre (mem_of_mem_dropWhileL hm)
  have hpost'tick : '`' ∉ (post.reverse.dropWhile pyWs).reverse :=
    fun hm => hpost (mem_of_mem_stripEnd hm)
  have hpj' : (['j', 's', 'o', 'n'] : List Char).isPrefixOf
      (post.reverse.dropWhile pyWs).reverse = false := json_prefix_stripEnd_false hpj
  have hpost'head := head_ne_tick_of_not_mem hpost'tick
  have hM : (ticks ++ (ws1 ++ (('{' :: (bMid ++ ['}'])) ++ (ws2 ++ ticks)))).getLast?
      = some '`' := by
    have he : ticks ++ (ws1 ++ (('{' :: (bMid ++ ['}'])) ++ (ws2 ++ ticks)))
        = (ticks ++ (ws1 ++ (('{' :: (bMid ++ ['}'])) ++ ws2))) ++ ticks := by
      simp [List.append_assoc]
    rw [he]
    exact getLast_tick _
  have hstrip := strip_shape pre
    (ticks ++ (ws1 ++ (('{' :: (bMid ++ ['}'])) ++ (ws2 ++ ticks)))) post rfl hM
  have hjn : searchFence jsonOpen (pre.dropWhile pyWs ++
      ((ticks ++ (ws1 ++ (('{' :: (bMid ++ ['}'])) ++ (ws2 ++ ticks)))) ++
        (post.reverse.dropWhile pyWs).reverse)) = none := by
    apply searchFence_eq_none
    intro t ht
    rcases suffix_append_cases ht with ht1 | ⟨u, hu, hune, rfl⟩
    · rcases suffix_append_cases ht1 with ht2 | ⟨u, hu, hune, rfl⟩
      · cases t with
        | nil => exact tryAt_jsonOpen_nil
        | cons c cs =>
          have hc : c ∈ (post.reverse.dropWhile pyWs).reverse := ht2.subset (by simp)
          exact tryAt_none_of_prefix_false
            (cons_not_prefixOf (fun he => hpost'tick (he ▸ hc)))
      · exact block_skip hws1 hws2 hbMid hpj' hpost'head u hu hune
    · exact noTick_suffix_tryAt jsonOpen _ rfl hpre'tick u hu hune
  have hblock : tryAt ticks (ticks ++ (ws1 ++ (('{' :: (bMid ++ ['}'])) ++
      (ws2 ++ (ticks ++ (post.reverse.dropWhile pyWs).reverse)))))
      = some ('{' :: (bMid ++ ['}'])) := tryAt_block hws1 hws2 hpost'tick
  have hts : searchFence ticks (pre.dropWhile pyWs ++ (ticks ++ (ws1 ++
      (('{' :: (bMid ++ ['}'])) ++ (ws2 ++ (ticks ++ (post.reverse.dropWhile pyWs).reverse))))))
      = some ('{' :: (bMid ++ ['}'])) := by
    rw [searchFence_append_skip (pre.dropWhile pyWs) _
      (noTick_suffix_tryAt ticks _ rfl hpre'tick)]
    exact searchFence_cons_some hblock
  unfold extract_json_from_text
  rw [hstrip]
  simp only [List.append_assoc, List.cons_append, List.singleton_append] at hjn hts ⊢
  rw [hjn, hts]
  simp [pyStrip_brace]

theorem extraction_prefers_tagged {pre ws1 b1Mid ws2 mid' ws3 b2Mid ws4 post : List Char}
    {d : Char}
    (hpre : '`' ∉ pre) (hws1 : allWs ws1) (hws2 : allWs ws2) (hb1Mid : '`' ∉ b1Mid)
    (hdm : '`' ∉ (d :: mid')) (hdj : d ≠ 'j')
    (hws3 : allWs ws3) (hws4 : allWs ws4) (hpost : '`' ∉ post) :
    extract_json_from_text
      (pre ++ (((ticks ++ (ws1 ++ (('{' :: (b1Mid ++ ['}'])) ++ (ws2 ++ ticks)))) ++
        ((d :: mid') ++ (jsonOpen ++ (ws3 ++ (('{' :: (b2Mid ++ ['}'])) ++ (ws4 ++ ticks))))))
        ++ post))
      = '{' :: (b2Mid ++ ['}']) := by
  have hpre'tick : '`' ∉ pre.dropWhile pyWs := fun hm => hpre (mem_of_mem_dropWhileL hm)
  have hpost'tick : '`' ∉ (post.reverse.dropWhile pyWs).reverse :=
    fun hm => hpost (mem_of_mem_stripEnd hm)
  have hM : ((ticks ++ (ws1 ++ (('{' :: (b1Mid ++ ['}'])) ++ (ws2 ++ ticks)))) ++
      ((d :: mid') ++ (jsonOpen ++ (ws3 ++ (('{' :: (b2Mid ++ ['}'])) ++
        (ws4 ++ ticks)))))).getLast? = some '`' := by
    have he : (ticks ++ (ws1 ++ (('{' :: (b1Mid ++ ['}'])) ++ (ws2 ++ ticks)))) ++
        ((d :: mid') ++ (jsonOpen ++ (ws3 ++ (('{' :: (b2Mid ++ ['}'])) ++ (ws4 ++ ticks)))))
        = ((ticks ++ (ws1 ++ (('{' :: (b1Mid ++ ['}'])) ++ (ws2 ++ ticks)))) ++
          ((d :: mid') ++ (jsonOpen ++ (ws3 ++ (('{' :: (b2Mid ++ ['}'])) ++ ws4))))) ++
          ticks := by
      simp [List.append_assoc]
    rw [he]
    exact getLast_tick _
  have hstrip := strip_shape pre
    ((ticks ++ (ws1 ++ (('{' :: (b1Mid ++ ['}'])) ++ (ws2 ++ ticks)))) ++
      ((d :: mid') ++ (jsonOpen ++ (ws3 ++ (('{' :: (b2Mid ++ ['}'])) ++ (ws4 ++ ticks))))))
    post rfl hM
  have hK1 : (['j', 's', 'o', 'n'] : List Char).isPrefixOf ((d :: mid') ++
      (jsonOpen ++ (ws3 ++ (('{' :: (b2Mid ++ ['}'])) ++
        (ws4 ++ (ticks ++ (post.reverse.dropWhile pyWs).reverse)))))) = false :=
    cons_not_prefixOf hdj
  have hK2 : ∀ x, ((d :: mid') ++ (jsonOpen ++ (ws3 ++ (('{' :: (b2Mid ++ ['}'])) ++
      (ws4 ++ (ticks ++ (post.reverse.dropWhile pyWs).reverse)))))).head? = some x →
      x ≠ '`' := by
    intro x hx he
    have hd : d = x := Option.some.inj hx
    exact hdm (List.mem_cons.mpr (Or.inl ((hd.trans he).symm)))
  have hsf : searchFence jsonOpen (pre.dropWhile pyWs ++
      ((ticks ++ (ws1 ++ (('{' :: (b1Mid ++ ['}'])) ++ (ws2 ++ ticks)))) ++
        ((d :: mid') ++ (jsonOpen ++ (ws3 ++ (('{' :: (b2Mid ++ ['}'])) ++
          (ws4 ++ (ticks ++ (post.reverse.dropWhile pyWs).reverse))))))))
      = some ('{' :: (b2Mid ++ ['}'])) := by
    rw [searchFence_append_skip (pre.dropWhile pyWs) _
      (noTick_suffix_tryAt jsonOpen _ rfl hpre'tick)]
    rw [searchFence_append_skip _ _ (block_skip hws1 hws2 hb1Mid hK1 hK2)]
    rw [searchFence_append_skip _ _ (noTick_suffix_tryAt jsonOpen _ rfl hdm)]
    exact searchFence_cons_some (tryAt_block hws3 hws4 hpost'tick)
  unfold extract_json_from_text
  rw [hstrip]
  simp only [List.append_assoc, List.cons_append, List.singleton_append] at hsf ⊢
  rw [hsf]
  simp [pyStrip_brace]

/-- Claim C2 counterexample: the claim says that when the text contains a
json-tagged fenced block whose body is a brace-delimited object, that body
(stripped) is the candidate.  But the regex group `\{.*\}` is greedy: with a
second fenced object later in the text, the candidate runs from the first
opening brace to the last closing brace that precedes a fence, crossing the
fence boundaries, and is not the body of the json-tagged block. -/
theorem c2_counterexample :
    specJsonFenceBody
      "```json\n\x7b\"a\": 1\x7d\n```\n```\n\x7b\"b\": 2\x7d\n```".toList
      "\x7b\"a\": 1\x7d".toList ∧
    extract_json_from_text
        "```json\n\x7b\"a\": 1\x7d\n```\n```\n\x7b\"b\": 2\x7d\n```".toList
      ≠ pyStrip "\x7b\"a\": 1\x7d".toList := by
  constructor
  · exact ⟨[], ['\n'], ['\n'], "\n```\n\x7b\"b\": 2\x7d\n```".toList,
      by decide, by unfold allWs; decide, by unfold allWs; decide,
      by decide, by decide, by decide⟩
  · decide

/-- Claim C2 (amended): extraction follows the preference order json-tagged
fence, then untagged fence, then the whole stripped input, with the greedy
regex semantics: the candidate runs from the first `{` after the matched
opener to the last `}` followed by optional whitespace and a fence, which
coincides with the fenced body for a well-formed block whose body is
backtick-free and which is the last fence construct, but may span across
fences otherwise.  Conjuncts: (1) no fence in the stripped text: the
candidate is the stripped input unchanged; (2) a json-tagged block in
backtick-free context yields its body; (3) an untagged block (with no
json-tagged match anywhere) yields its body; (4) a json-tagged block is
preferred even when an untagged block precedes it; (5) on a concrete input
with two blocks the greedy candidate spans across the fences. -/
theorem c2_extraction_order :
    (∀ s : List Char, containsSub ticks (pyStrip s) = false →
      extract_json_from_text s = pyStrip s) ∧
    (∀ pre ws1 bMid ws2 post : List Char,
      '`' ∉ pre → allWs ws1 → allWs ws2 → '`' ∉ post →
      extract_json_from_text
        (pre ++ ((jsonOpen ++ (ws1 ++ (('{' :: (bMid ++ ['}'])) ++ (ws2 ++ ticks)))) ++ post))
        = '{' :: (bMid ++ ['}'])) ∧
    (∀ pre ws1 bMid ws2 post : List Char,
      '`' ∉ pre → allWs ws1 → allWs ws2 → '`' ∉ bMid → '`' ∉ post →
      (['j', 's', 'o', 'n'] : List Char).isPrefixOf post = false →
      extract_json_from_text
        (pre ++ ((ticks ++ (ws1 ++ (('{' :: (bMid ++ ['}'])) ++ (ws2 ++ ticks)))) ++ post))
        = '{' :: (bMid ++ ['}'])) ∧
    (∀ (pre ws1 b1Mid ws2 mid' ws3 b2Mid ws4 post : List Char) (d : Char),
      '`' ∉ pre → allWs ws1 → allWs ws2 → '`' ∉ b1Mid →
      '`' ∉ (d :: mid') → d ≠ 'j' → allWs ws3 → allWs ws4 → '`' ∉ post →
      extract_json_from_text
        (pre ++ (((ticks ++ (ws1 ++ (('{' :: (b1Mid ++ ['}'])) ++ (ws2 ++ ticks)))) ++
          ((d :: mid') ++ (jsonOpen ++ (ws3 ++ (('{' :: (b2Mid ++ ['}'])) ++
            (ws4 ++ ticks)))))) ++ post))
        = '{' :: (b2Mid ++ ['}'])) ∧
    extract_json_from_text
        "```json\n\x7b\"a\": 1\x7d\n```\n```\n\x7b\"b\": 2\x7d\n```".toList
      = "\x7b\"a\": 1\x7d\n```\n```\n\x7b\"b\": 2\x7d".toList := by
  refine ⟨?_, ?_, ?_, ?_, ?_⟩
  · intro s h
    exact extraction_no_fence h
  · intro pre ws1 bMid ws2 post h1 h2 h3 h4
    exact extraction_tagged h1 h2 h3 h4
  · intro pre ws1 bMid ws2 post h1 h2 h3 h4 h5 h6
    exact extraction_untagged h1 h2 h3 h4 h5 h6
  · intro pre ws1 b1Mid ws2 mid' ws3 b2Mid ws4 post d h1 h2 h3 h4 h5 h6 h7 h8 h9
    exact extraction_prefers_tagged h1 h2 h3 h4 h5 h6 h7 h8 h9
  · decide

/-- Witness for the amended claim C2 at a concrete json-tagged input. -/
theorem c2_extraction_order_witness :
    extract_json_from_text ("x ".toList ++ ((jsonOpen ++ (['\n'] ++
      (('{' :: ("\"a\": 1".toList ++ ['}'])) ++ (['\n'] ++ ticks)))) ++ " y".toList))
      = '{' :: ("\"a\": 1".toList ++ ['}']) :=
  c2_extraction_order.2.1 "x ".toList ['\n'] "\"a\": 1".toList ['\n'] " y".toList
    (by decide) (by unfold allWs; decide) (by unfold allWs; decide) (by decide)
